import Mathlib

/-!
Opcode handlers of the speculative EVM interpreter (`instructions.go`).

A shallow embedding of the opcode handlers of `src/instructions.go`.

* A 256-bit word (`uint256.Int`) is a natural number below `2 ^ 256`; every
  operation of the `uint256` library is written out with its reduction
  modulo `2 ^ 256`.
* A handler `func op_X(pc *uint64, in *interpreter, ctx *callCtx) uint64`
  becomes `op_X : Nat → interpreter → callCtx → Option Outcome`: the outcome
  carries the returned value together with the updated `pc`, interpreter and
  call context, and `none` stands for a Go run-time panic (stack underflow).
* Containers whose Go source is not part of `instructions.go` (stack, memory,
  storage overlay, read/write set, call-level tables, orchestrator) are
  modelled from the specification or taken as parameters; each such
  definition says so in its doc comment.
-/

namespace Preprocessing

/-! ## Words (`github.com/holiman/uint256`) -/

/-- A 256-bit word, kept as a natural number below `2 ^ 256`. -/
abbrev Word := Nat

/-- A 20-byte account address, kept as a natural number below `2 ^ 160`. -/
abbrev Address := Nat

/-- A byte sequence; every element is below 256. -/
abbrev Bytes := List Nat

/-- The modulus `2 ^ 256` of word arithmetic. -/
def wordMod : Nat := 2 ^ 256

/-- The modulus `2 ^ 64` of `uint64` arithmetic. -/
def u64Mod : Nat := 2 ^ 64

namespace U256

/-- `z.Uint64()`: the low 64 bits of the word. -/
def Uint64 (z : Word) : Nat := z % u64Mod

/-- `z.Uint64WithOverflow()`: the low 64 bits, and whether a higher bit is set. -/
def Uint64WithOverflow (z : Word) : Nat × Bool := (z % u64Mod, decide (u64Mod ≤ z))

/-- `z.IsZero()`. -/
def IsZero (z : Word) : Bool := decide (z = 0)

/-- `z.LtUint64(n)`. -/
def LtUint64 (z : Word) (n : Nat) : Bool := decide (z < n)

/-- `z.GtUint64(n)`. -/
def GtUint64 (z : Word) (n : Nat) : Bool := decide (n < z)

/-- `z.Sign()`: 0 for zero, -1 when bit 255 is set, 1 otherwise. -/
def Sign (z : Word) : Int :=
  if z = 0 then 0 else if z < 2 ^ 255 then 1 else -1

/-- `z.Neg(x)`: two's-complement negation. -/
def Neg (x : Word) : Word := (wordMod - x % wordMod) % wordMod

/-- `z.Add(x, y)`. -/
def Add (x y : Word) : Word := (x + y) % wordMod

/-- `z.Mul(x, y)`. -/
def Mul (x y : Word) : Word := (x * y) % wordMod

/-- `z.Sub(x, y)`: `x - y` modulo `2 ^ 256`. -/
def Sub (x y : Word) : Word := (x + (wordMod - y % wordMod)) % wordMod

/-- `z.Div(x, y)`: unsigned quotient, zero when the divisor is zero. -/
def Div (x y : Word) : Word := if y = 0 then 0 else x / y

/-- `z.Mod(x, y)`: unsigned remainder, zero when the divisor is zero. -/
def Mod (x y : Word) : Word := if y = 0 then 0 else x % y

/-- `z.SDiv(n, d)`: signed quotient, by the four sign cases of the library. -/
def SDiv (n d : Word) : Word :=
  if Sign n > 0 then
    if Sign d > 0 then Div n d
    else Neg (Div n (Neg d))
  else if Sign d < 0 then Div (Neg n) (Neg d)
  else Neg (Div (Neg n) d)

/-- `z.SMod(x, y)`: signed remainder; the sign follows the dividend. -/
def SMod (x y : Word) : Word :=
  let ax := if Sign x = -1 then Neg x else x
  let ay := if Sign y = -1 then Neg y else y
  let r := Mod ax ay
  if Sign x = -1 then Neg r else r

/-- `z.AddMod(x, y, m)`: `(x + y) mod m` without intermediate wrap-around. -/
def AddMod (x y m : Word) : Word := if m = 0 then 0 else (x + y) % m

/-- `z.MulMod(x, y, m)`: `(x * y) mod m` without intermediate wrap-around. -/
def MulMod (x y m : Word) : Word := if m = 0 then 0 else (x * y) % m

/-- The square-and-multiply loop of `z.Exp`: one exponent bit per round. -/
def expLoop : Nat → Word → Word → Word → Word
  | 0, _, _, res => res
  | fuel + 1, multiplier, e, res =>
    if e = 0 then res
    else expLoop fuel (Mul multiplier multiplier) (e / 2)
      (if e % 2 = 1 then Mul res multiplier else res)

/-- `z.Exp(base, exponent)`: exponentiation modulo `2 ^ 256`. -/
def Exp (base exponent : Word) : Word := expLoop 256 base exponent 1

/-- `z.Lsh(x, n)`: left shift, bits above 255 dropped. -/
def Lsh (x : Word) (n : Nat) : Word := (x * 2 ^ n) % wordMod

/-- `z.Rsh(x, n)`: logical right shift. -/
def Rsh (x : Word) (n : Nat) : Word := x / 2 ^ n

/-- `z.SRsh(x, n)`: arithmetic right shift; a set bit 255 is copied down. -/
def SRsh (x : Word) (n : Nat) : Word :=
  if x < 2 ^ 255 then Rsh x n
  else if 255 < n then wordMod - 1
  else x / 2 ^ n + (wordMod - 2 ^ (256 - n))

/-- `z.Not(x)`: bitwise complement over 256 bits. -/
def Not (x : Word) : Word := wordMod - 1 - x % wordMod

/-- `z.And(x, y)`. -/
def And (x y : Word) : Word := Nat.land x y

/-- `z.Or(x, y)`. -/
def Or (x y : Word) : Word := Nat.lor x y

/-- `z.Xor(x, y)`. -/
def Xor (x y : Word) : Word := Nat.xor x y

/-- `z.Byte(n)`: byte `n` of `z` counted from the most significant one,
zero when `n` is 32 or more. -/
def Byte (z n : Word) : Word :=
  if n < 32 then (z / 2 ^ (8 * (31 - n))) % 256 else 0

/-- `z.ExtendSign(x, byteNum)`: `x` unchanged when `byteNum > 31`, otherwise
`x` with bit `byteNum * 8 + 7` copied into every higher bit. -/
def ExtendSign (x byteNum : Word) : Word :=
  if GtUint64 byteNum 31 then x
  else
    let bit := Uint64 byteNum * 8 + 7
    let mask := (Lsh 1 bit + (wordMod - 1)) % wordMod
    if Nat.testBit x bit then Or x (Not mask) else And x mask

/-- `x.Lt(y)`. -/
def Lt (x y : Word) : Bool := decide (x < y)

/-- `x.Gt(y)`. -/
def Gt (x y : Word) : Bool := decide (y < x)

/-- The signed value of a word in two's complement. -/
def toSigned (x : Word) : Int := if x < 2 ^ 255 then (x : Int) else (x : Int) - 2 ^ 256

/-- `x.Slt(y)`: signed less-than. -/
def Slt (x y : Word) : Bool := decide (toSigned x < toSigned y)

/-- `x.Sgt(y)`: signed greater-than. -/
def Sgt (x y : Word) : Bool := decide (toSigned y < toSigned x)

/-- `x.Eq(y)`. -/
def Eq (x y : Word) : Bool := decide (x = y)

/-- `z.Bytes20()` read as an address: the low 20 bytes of the word. -/
def Bytes20 (z : Word) : Address := z % 2 ^ 160

/-- Big-endian bytes of `n`, exactly `len` of them (high bytes dropped). -/
def toBytesBE : Nat → Nat → Bytes
  | 0, _ => []
  | len + 1, n => (n / 256 ^ len) % 256 :: toBytesBE len n

/-- `z.Bytes32()`: the 32 big-endian bytes of the word. -/
def Bytes32 (z : Word) : Bytes := toBytesBE 32 z

/-- `z.SetBytes(buf)`: the word a big-endian byte sequence denotes
(at most 32 bytes reach a handler). -/
def SetBytes (buf : Bytes) : Word :=
  (buf.foldl (fun acc b => acc * 256 + b % 256) 0) % wordMod

end U256

/-! ## Containers reached through `ctx` and `in` -/

/-- Modelled from the spec: the `Stack` type of `ctx.stack` is not in
`instructions.go`. An ordered LIFO sequence of words; the head of the list is
the top of the stack. -/
abbrev Stack := List Word

namespace Stack

/-- Modelled from the spec: `pop() -> Word`, failing on an empty stack. -/
def Pop : Stack → Option (Word × Stack)
  | [] => none
  | x :: rest => some (x, rest)

/-- Modelled from the spec: `peek()`, the top item, failing on an empty stack. -/
def Peek : Stack → Option Word
  | [] => none
  | x :: _ => some x

/-- Modelled from the spec: a write through the reference `peek()` returns;
it overwrites the top slot and leaves every slot below it as it was. -/
def setTop : Stack → Word → Stack
  | [], _ => []
  | _ :: rest, v => v :: rest

/-- Modelled from the spec: `push(Word)`. -/
def Push (s : Stack) (v : Word) : Stack := v :: s

end Stack

/-- Modelled from the spec: the `Memory` type of `ctx.memory` is not in
`instructions.go`. A growable byte buffer `store`, addressed by byte offset. -/
structure Memory where
  /-- The bytes held so far. -/
  store : Bytes
deriving DecidableEq, Repr

namespace Memory

/-- Modelled from the spec: `length() -> size`. -/
def Len (m : Memory) : Nat := m.store.length

/-- Modelled from the spec: `get(offset, size)`, the `size` bytes from
`offset`, reading zero beyond the current length; the memory is not changed. -/
def GetPtr (m : Memory) (offset size : Nat) : Bytes :=
  (List.range size).map (fun i => m.store.getD (offset + i) 0)

/-- Modelled from the spec: `get_copy(offset, size)`, an owned copy of the
same bytes. -/
def GetCopy (m : Memory) (offset size : Nat) : Bytes := m.GetPtr offset size

/-- The value of a memory write of `size` bytes: `value` cut to `size` bytes,
or followed by zero bytes up to `size`. -/
def fit (size : Nat) (value : Bytes) : Bytes :=
  value.take size ++ List.replicate (size - value.length) 0

/-- Modelled from the spec: `set(offset, size, bytes)`. The memory grows with
zero bytes to cover `offset + size`, then the `size` bytes from `offset` become
`bytes` truncated or zero-padded to `size`; a write of size 0 changes nothing. -/
def Set (m : Memory) (offset size : Nat) (value : Bytes) : Memory :=
  if size = 0 then m
  else
    let grown := m.store ++ List.replicate (offset + size - m.store.length) 0
    ⟨grown.take offset ++ fit size value ++ grown.drop (offset + size)⟩

end Memory

/-- The kind of an access recorded in the read/write set (`READ`, `WRITE`). -/
inductive Access where
  | READ
  | WRITE
deriving DecidableEq, Repr

/-- Modelled from the spec: the read/write set `in.evm.rw_set` is not in
`instructions.go`. It is kept as the sequence of recorded accesses, oldest
first, one item per call of `add`. -/
abbrev RWSet := List (Address × Access)

/-- Modelled from the spec: `rw_set.add(address, kind)` records one access. -/
def RWSet.add (s : RWSet) (a : Address) (k : Access) : RWSet := s ++ [(a, k)]

/-- Modelled from the spec: the storage overlay `in.evm.mstate` is not in
`instructions.go`. A mapping from address to balance and from (address, slot
key) to value; `none` is an absent entry, which is not a zero value. -/
structure MockState where
  /-- Speculative balances. -/
  balances : Address → Option Word
  /-- Speculative storage slots, keyed by address and 32-byte slot key. -/
  storage : Address → Bytes → Option Word

namespace MockState

/-- Modelled from the spec: `get_balance(addr) -> optional`. -/
def get_balance (m : MockState) (a : Address) : Option Word := m.balances a

/-- Modelled from the spec: `get_state(addr, slot) -> optional`; the Go method
reports presence and writes the value through its third argument. -/
def get_state (m : MockState) (a : Address) (key : Bytes) : Option Word := m.storage a key

/-- Modelled from the spec: `set_state(addr, slot, value)` sets one entry. -/
def set_state (m : MockState) (a : Address) (key : Bytes) (v : Word) : MockState :=
  { m with storage := fun a' key' => if a' = a ∧ key' = key then some v else m.storage a' key' }

end MockState

/-- The committed state `in.evm.state` (an external state reader): only its
read operations are used by the handlers. -/
structure CommittedState where
  /-- `GetBalance(addr)`. -/
  GetBalance : Address → Word
  /-- `GetState(addr, key, out)`: the value written to `out`. -/
  GetState : Address → Bytes → Word
  /-- `GetCode(addr)`. -/
  GetCode : Address → Bytes
  /-- `GetCodeSize(addr)`. -/
  GetCodeSize : Address → Nat
  /-- `GetCodeHash(addr).Bytes()`. -/
  GetCodeHash : Address → Bytes
  /-- `Empty(addr)`. -/
  Empty : Address → Bool

/-- The block context `in.evm.block` (an external block type). -/
structure Block where
  /-- `NumberU64()`, below `2 ^ 64`. -/
  NumberU64 : Nat
  /-- `Hash().Bytes()`, 32 bytes. -/
  Hash : Bytes

/-- The contract frame `ctx.contract`: immutable during one execution. -/
structure Contract where
  /-- `Code`. -/
  Code : Bytes
  /-- `Address()`. -/
  address : Address
  /-- `Caller()`. -/
  caller : Address
  /-- `value`. -/
  value : Word
  /-- `Input`. -/
  Input : Bytes
  /-- Modelled from the spec: `is_jumpable(dest)`, the jump-destination
  validity predicate; its body is not in `instructions.go`. -/
  is_jumpable : Word → Bool

/-- The fields of `in.evm` the handlers read or write. -/
structure EVM where
  /-- Storage overlay. -/
  mstate : MockState
  /-- Committed state. -/
  state : CommittedState
  /-- Read/write set. -/
  rw_set : RWSet
  /-- Modelled from the spec: `return_data`, call level to the ordered
  sequence of recorded return payloads; `return_data.get(level)` is
  application. -/
  return_data : Nat → List Bytes
  /-- Modelled from the spec: `create_addr`, call level to created address. -/
  create_addr : Nat → Address
  /-- Current call nesting level. -/
  level : Nat
  /-- Flag `abort`. -/
  abort : Bool
  /-- Flag `result`. -/
  result : Bool
  /-- Flag `suicide`. -/
  suicide : Bool
  /-- Block context. -/
  block : Block

/-- The interpreter scratch `in`: hashing buffer and the EVM handle. -/
structure interpreter where
  /-- `hasherBuf`, 32 bytes. -/
  hasherBuf : Bytes
  /-- `evm`. -/
  evm : EVM

/-- The call context `ctx`: contract frame, stack and memory of one frame. -/
structure callCtx where
  /-- `contract`. -/
  contract : Contract
  /-- `stack`. -/
  stack : Stack
  /-- `memory`. -/
  memory : Memory

/-- What a handler leaves behind: the returned `uint64` and the state it
reached through its three pointer arguments. -/
structure Outcome where
  /-- The returned value (next program counter override, or 0). -/
  ret : Nat
  /-- The program counter `*pc`. -/
  pc : Nat
  /-- The interpreter. -/
  interp : interpreter
  /-- The call context. -/
  ctx : callCtx

/-- Modelled from the spec: the orchestrator operations of `in.evm` (`call`,
`call_code`, `delegate_call`, `static_call`) are not in `instructions.go`.
Each is an arbitrary transformer of the EVM record, given the calling
contract, the target address, the input payload and (for the first two) the
value; the frame's own stack and memory are not handed to it. -/
structure Orchestrator where
  /-- `evm.call(contract, to, input, value)`. -/
  call : EVM → Contract → Address → Bytes → Word → EVM
  /-- `evm.call_code(contract, to, input, value)`. -/
  call_code : EVM → Contract → Address → Bytes → Word → EVM
  /-- `evm.delegate_call(contract, to, input)`. -/
  delegate_call : EVM → Contract → Address → Bytes → EVM
  /-- `evm.static_call(contract, to, input)`. -/
  static_call : EVM → Contract → Address → Bytes → EVM

/-! ## 0s: arithmetic handlers -/

/-- `op_ADD` of `instructions.go`. -/
def op_ADD (pc : Nat) (interp : interpreter) (ctx : callCtx) : Option Outcome := do
  let (x, s) ← Stack.Pop ctx.stack
  let y ← Stack.Peek s
  some ⟨0, pc, interp, { ctx with stack := Stack.setTop s (U256.Add x y) }⟩

/-- `op_MUL` of `instructions.go`. -/
def op_MUL (pc : Nat) (interp : interpreter) (ctx : callCtx) : Option Outcome := do
  let (x, s) ← Stack.Pop ctx.stack
  let y ← Stack.Peek s
  some ⟨0, pc, interp, { ctx with stack := Stack.setTop s (U256.Mul x y) }⟩

/-- `op_SUB` of `instructions.go`. -/
def op_SUB (pc : Nat) (interp : interpreter) (ctx : callCtx) : Option Outcome := do
  let (x, s) ← Stack.Pop ctx.stack
  let y ← Stack.Peek s
  some ⟨0, pc, interp, { ctx with stack := Stack.setTop s (U256.Sub x y) }⟩

/-- `op_DIV` of `instructions.go`. -/
def op_DIV (pc : Nat) (interp : interpreter) (ctx : callCtx) : Option Outcome := do
  let (x, s) ← Stack.Pop ctx.stack
  let y ← Stack.Peek s
  some ⟨0, pc, interp, { ctx with stack := Stack.setTop s (U256.Div x y) }⟩

/-- `op_SDIV` of `instructions.go`. -/
def op_SDIV (pc : Nat) (interp : interpreter) (ctx : callCtx) : Option Outcome := do
  let (x, s) ← Stack.Pop ctx.stack
  let y ← Stack.Peek s
  some ⟨0, pc, interp, { ctx with stack := Stack.setTop s (U256.SDiv x y) }⟩

/-- `op_MOD` of `instructions.go`. -/
def op_MOD (pc : Nat) (interp : interpreter) (ctx : callCtx) : Option Outcome := do
  let (x, s) ← Stack.Pop ctx.stack
  let y ← Stack.Peek s
  some ⟨0, pc, interp, { ctx with stack := Stack.setTop s (U256.Mod x y) }⟩

/-- `op_SMOD` of `instructions.go`. -/
def op_SMOD (pc : Nat) (interp : interpreter) (ctx : callCtx) : Option Outcome := do
  let (x, s) ← Stack.Pop ctx.stack
  let y ← Stack.Peek s
  some ⟨0, pc, interp, { ctx with stack := Stack.setTop s (U256.SMod x y) }⟩

/-- `op_EXP` of `instructions.go`: the fast paths in source order, then the
general exponentiation. -/
def op_EXP (pc : Nat) (interp : interpreter) (ctx : callCtx) : Option Outcome := do
  let (base, s) ← Stack.Pop ctx.stack
  let exponent ← Stack.Peek s
  let r : Word :=
    if U256.IsZero exponent then 1
    else if U256.IsZero base then 0
    else if U256.LtUint64 exponent 2 then base
    else if U256.LtUint64 base 2 then 1
    else if U256.LtUint64 base 3 then
      if U256.LtUint64 exponent 256 then U256.Lsh 1 (U256.Uint64 exponent) else 0
    else U256.Exp base exponent
  some ⟨0, pc, interp, { ctx with stack := Stack.setTop s r }⟩

/-- `op_SIGNEXTEND` of `instructions.go`. -/
def op_SIGNEXTEND (pc : Nat) (interp : interpreter) (ctx : callCtx) : Option Outcome := do
  let (back, s) ← Stack.Pop ctx.stack
  let num ← Stack.Peek s
  some ⟨0, pc, interp, { ctx with stack := Stack.setTop s (U256.ExtendSign num back) }⟩

/-! ## 10s: comparison and bitwise handlers -/

/-- `op_LT` of `instructions.go`. -/
def op_LT (pc : Nat) (interp : interpreter) (ctx : callCtx) : Option Outcome := do
  let (x, s) ← Stack.Pop ctx.stack
  let y ← Stack.Peek s
  some ⟨0, pc, interp, { ctx with stack := Stack.setTop s (if U256.Lt x y then 1 else 0) }⟩

/-- `op_GT` of `instructions.go`. -/
def op_GT (pc : Nat) (interp : interpreter) (ctx : callCtx) : Option Outcome := do
  let (x, s) ← Stack.Pop ctx.stack
  let y ← Stack.Peek s
  some ⟨0, pc, interp, { ctx with stack := Stack.setTop s (if U256.Gt x y then 1 else 0) }⟩

/-- `op_SLT` of `instructions.go`. -/
def op_SLT (pc : Nat) (interp : interpreter) (ctx : callCtx) : Option Outcome := do
  let (x, s) ← Stack.Pop ctx.stack
  let y ← Stack.Peek s
  some ⟨0, pc, interp, { ctx with stack := Stack.setTop s (if U256.Slt x y then 1 else 0) }⟩

/-- `op_SGT` of `instructions.go`. -/
def op_SGT (pc : Nat) (interp : interpreter) (ctx : callCtx) : Option Outcome := do
  let (x, s) ← Stack.Pop ctx.stack
  let y ← Stack.Peek s
  some ⟨0, pc, interp, { ctx with stack := Stack.setTop s (if U256.Sgt x y then 1 else 0) }⟩

/-- `op_EQ` of `instructions.go`. -/
def op_EQ (pc : Nat) (interp : interpreter) (ctx : callCtx) : Option Outcome := do
  let (x, s) ← Stack.Pop ctx.stack
  let y ← Stack.Peek s
  some ⟨0, pc, interp, { ctx with stack := Stack.setTop s (if U256.Eq x y then 1 else 0) }⟩

/-- `op_AND` of `instructions.go`. -/
def op_AND (pc : Nat) (interp : interpreter) (ctx : callCtx) : Option Outcome := do
  let (x, s) ← Stack.Pop ctx.stack
  let y ← Stack.Peek s
  some ⟨0, pc, interp, { ctx with stack := Stack.setTop s (U256.And x y) }⟩

/-- `op_OR` of `instructions.go`. -/
def op_OR (pc : Nat) (interp : interpreter) (ctx : callCtx) : Option Outcome := do
  let (x, s) ← Stack.Pop ctx.stack
  let y ← Stack.Peek s
  some ⟨0, pc, interp, { ctx with stack := Stack.setTop s (U256.Or x y) }⟩

/-- `op_XOR` of `instructions.go`. -/
def op_XOR (pc : Nat) (interp : interpreter) (ctx : callCtx) : Option Outcome := do
  let (x, s) ← Stack.Pop ctx.stack
  let y ← Stack.Peek s
  some ⟨0, pc, interp, { ctx with stack := Stack.setTop s (U256.Xor x y) }⟩

/-- `op_BYTE` of `instructions.go`. -/
def op_BYTE (pc : Nat) (interp : interpreter) (ctx : callCtx) : Option Outcome := do
  let (th, s) ← Stack.Pop ctx.stack
  let val ← Stack.Peek s
  some ⟨0, pc, interp, { ctx with stack := Stack.setTop s (U256.Byte val th) }⟩

/-- `op_SHL` of `instructions.go`. -/
def op_SHL (pc : Nat) (interp : interpreter) (ctx : callCtx) : Option Outcome := do
  let (shift, s) ← Stack.Pop ctx.stack
  let value ← Stack.Peek s
  some ⟨0, pc, interp, { ctx with stack := Stack.setTop s (if U256.LtUint64 shift 256 then U256.Lsh value (U256.Uint64 shift) else 0) }⟩

/-- `op_SHR` of `instructions.go`. -/
def op_SHR (pc : Nat) (interp : interpreter) (ctx : callCtx) : Option Outcome := do
  let (shift, s) ← Stack.Pop ctx.stack
  let value ← Stack.Peek s
  some ⟨0, pc, interp, { ctx with stack := Stack.setTop s (if U256.LtUint64 shift 256 then U256.Rsh value (U256.Uint64 shift) else 0) }⟩

/-- `op_SAR` of `instructions.go`: for a shift above 255 the value is first
replaced by zero or by the all-ones word, and the arithmetic shift by the low
64 bits of the shift is then applied in every case. -/
def op_SAR (pc : Nat) (interp : interpreter) (ctx : callCtx) : Option Outcome := do
  let (shift, s) ← Stack.Pop ctx.stack
  let value ← Stack.Peek s
  let value1 : Word :=
    if U256.GtUint64 shift 255 then
      if U256.Sign value ≥ 0 then 0 else wordMod - 1
    else value
  let n := U256.Uint64 shift
  some ⟨0, pc, interp, { ctx with stack := Stack.setTop s (U256.SRsh value1 n) }⟩

/-! ## 30s, 40s: account and block information -/

/-- `op_BALANCE` of `instructions.go`: overlay balance when present, else the
committed balance; one READ for the queried address. -/
def op_BALANCE (pc : Nat) (interp : interpreter) (ctx : callCtx) : Option Outcome := do
  let slot ← Stack.Peek ctx.stack
  let address := U256.Bytes20 slot
  let balance :=
    match interp.evm.mstate.get_balance address with
    | some b => b
    | none => interp.evm.state.GetBalance address
  some ⟨0, pc,
    { interp with evm := { interp.evm with rw_set := interp.evm.rw_set.add address Access.READ } },
    { ctx with stack := Stack.setTop ctx.stack balance }⟩

/-- `op_EXTCODESIZE` of `instructions.go`. -/
def op_EXTCODESIZE (pc : Nat) (interp : interpreter) (ctx : callCtx) : Option Outcome := do
  let slot ← Stack.Peek ctx.stack
  let address := U256.Bytes20 slot
  some ⟨0, pc,
    { interp with evm := { interp.evm with rw_set := interp.evm.rw_set.add address Access.READ } },
    { ctx with stack := Stack.setTop ctx.stack (interp.evm.state.GetCodeSize address % u64Mod) }⟩

/-- `op_EXTCODEHASH` of `instructions.go`. -/
def op_EXTCODEHASH (pc : Nat) (interp : interpreter) (ctx : callCtx) : Option Outcome := do
  let slot ← Stack.Peek ctx.stack
  let address := U256.Bytes20 slot
  let v : Word :=
    if interp.evm.state.Empty address then 0
    else U256.SetBytes (interp.evm.state.GetCodeHash address)
  some ⟨0, pc,
    { interp with evm := { interp.evm with rw_set := interp.evm.rw_set.add address Access.READ } },
    { ctx with stack := Stack.setTop ctx.stack v }⟩

/-- `op_BLOCKHASH` of `instructions.go`: the overflow branch clears the slot
and execution continues with the range test on the low 64 bits. -/
def op_BLOCKHASH (pc : Nat) (interp : interpreter) (ctx : callCtx) : Option Outcome := do
  let num ← Stack.Peek ctx.stack
  let (num64, overflow) := U256.Uint64WithOverflow num
  let s1 := if overflow then Stack.setTop ctx.stack 0 else ctx.stack
  let upper := interp.evm.block.NumberU64
  let lower := if upper < 257 then 0 else upper - 256
  let s2 :=
    if num64 ≥ lower ∧ num64 < upper then
      Stack.setTop s1 (U256.SetBytes interp.evm.block.Hash)
    else Stack.setTop s1 0
  some ⟨0, pc, interp, { ctx with stack := s2 }⟩

/-- `op_SELFBALANCE` of `instructions.go`: pushes the balance of the executing
contract; the handler has no call of `rw_set.add`. -/
def op_SELFBALANCE (pc : Nat) (interp : interpreter) (ctx : callCtx) : Option Outcome :=
  let address := ctx.contract.address
  let balance :=
    match interp.evm.mstate.get_balance address with
    | some b => b
    | none => interp.evm.state.GetBalance address
  some ⟨0, pc, interp, { ctx with stack := Stack.Push ctx.stack balance }⟩

/-! ## 50s: storage and control flow -/

/-- `op_SLOAD` of `instructions.go`: the slot key is the 32-byte form of the
top word; overlay value when present, else the committed value; one READ for
the executing contract. -/
def op_SLOAD (pc : Nat) (interp : interpreter) (ctx : callCtx) : Option Outcome := do
  let loc ← Stack.Peek ctx.stack
  let hasherBuf := U256.Bytes32 loc
  let addr := ctx.contract.address
  let v :=
    match interp.evm.mstate.get_state addr hasherBuf with
    | some w => w
    | none => interp.evm.state.GetState addr hasherBuf
  some ⟨0, pc,
    { hasherBuf := hasherBuf
      evm := { interp.evm with rw_set := interp.evm.rw_set.add ctx.contract.address Access.READ } },
    { ctx with stack := Stack.setTop ctx.stack v }⟩

/-- `op_SSTORE` of `instructions.go`: the value goes to the overlay only; one
WRITE for the executing contract. -/
def op_SSTORE (pc : Nat) (interp : interpreter) (ctx : callCtx) : Option Outcome := do
  let (loc, s1) ← Stack.Pop ctx.stack
  let (val, stack) ← Stack.Pop s1
  let hasherBuf := U256.Bytes32 loc
  let addr := ctx.contract.address
  some ⟨0, pc,
    { hasherBuf := hasherBuf
      evm := { interp.evm with
        mstate := interp.evm.mstate.set_state addr hasherBuf val
        rw_set := interp.evm.rw_set.add ctx.contract.address Access.WRITE } },
    { ctx with stack := stack }⟩

/-- `op_JUMP` of `instructions.go`. -/
def op_JUMP (pc : Nat) (interp : interpreter) (ctx : callCtx) : Option Outcome := do
  let (dest, stack) ← Stack.Pop ctx.stack
  if ctx.contract.is_jumpable dest then
    some ⟨U256.Uint64 dest, pc, interp, { ctx with stack := stack }⟩
  else
    some ⟨0, pc, interp, { ctx with stack := stack }⟩

/-- `op_JUMPI` of `instructions.go`: the condition is popped and dropped. -/
def op_JUMPI (pc : Nat) (interp : interpreter) (ctx : callCtx) : Option Outcome := do
  let (dest, s1) ← Stack.Pop ctx.stack
  let (_, stack) ← Stack.Pop s1
  if ctx.contract.is_jumpable dest then
    some ⟨U256.Uint64 dest, pc, interp, { ctx with stack := stack }⟩
  else
    some ⟨0, pc, interp, { ctx with stack := stack }⟩

/-! ## f0s: call resolution -/

/-- `op_CALL` of `instructions.go`: pop the arguments, hand over to the
orchestrator, then resolve on the number of payloads recorded one level up. -/
def op_CALL (orch : Orchestrator) (pc : Nat) (interp : interpreter) (ctx : callCtx) :
    Option Outcome := do
  let (_, s1) ← Stack.Pop ctx.stack
  let (addr, s2) ← Stack.Pop s1
  let (value, s3) ← Stack.Pop s2
  let (a_offset, s4) ← Stack.Pop s3
  let (a_size, s5) ← Stack.Pop s4
  let (b_offset, s6) ← Stack.Pop s5
  let (b_size, stack) ← Stack.Pop s6
  let to_addr := U256.Bytes20 addr
  let input := ctx.memory.GetPtr (U256.Uint64 a_offset) (U256.Uint64 a_size)
  let evm := orch.call interp.evm ctx.contract to_addr input value
  let bytes := evm.return_data (evm.level + 1)
  let bytes_size := bytes.length
  if bytes_size > 1 then
    some ⟨0, pc, { interp with evm := { evm with abort := true, result := false } },
      { ctx with stack := stack }⟩
  else if bytes_size = 1 then
    some ⟨0, pc, { interp with evm := evm },
      { ctx with
        stack := Stack.Push stack 1
        memory := ctx.memory.Set (U256.Uint64 b_offset) (U256.Uint64 b_size) (bytes.getD 0 []) }⟩
  else
    some ⟨0, pc, { interp with evm := { evm with abort := true, result := false } },
      { ctx with stack := stack }⟩

/-- `op_CALLCODE` of `instructions.go`: pop the arguments, hand over to the
orchestrator, then resolve on the number of payloads recorded one level up. -/
def op_CALLCODE (orch : Orchestrator) (pc : Nat) (interp : interpreter) (ctx : callCtx) :
    Option Outcome := do
  let (_, s1) ← Stack.Pop ctx.stack
  let (addr, s2) ← Stack.Pop s1
  let (value, s3) ← Stack.Pop s2
  let (a_offset, s4) ← Stack.Pop s3
  let (a_size, s5) ← Stack.Pop s4
  let (b_offset, s6) ← Stack.Pop s5
  let (b_size, stack) ← Stack.Pop s6
  let to_addr := U256.Bytes20 addr
  let input := ctx.memory.GetPtr (U256.Uint64 a_offset) (U256.Uint64 a_size)
  let evm := orch.call_code interp.evm ctx.contract to_addr input value
  let bytes := evm.return_data (evm.level + 1)
  let bytes_size := bytes.length
  if bytes_size > 1 then
    some ⟨0, pc, { interp with evm := { evm with abort := true, result := false } },
      { ctx with stack := stack }⟩
  else if bytes_size = 1 then
    some ⟨0, pc, { interp with evm := evm },
      { ctx with
        stack := Stack.Push stack 1
        memory := ctx.memory.Set (U256.Uint64 b_offset) (U256.Uint64 b_size) (bytes.getD 0 []) }⟩
  else
    some ⟨0, pc, { interp with evm := { evm with abort := true, result := false } },
      { ctx with stack := stack }⟩

/-- `op_DELEGATECALL` of `instructions.go`: pop the arguments, hand over to the
orchestrator, then resolve on the number of payloads recorded one level up. -/
def op_DELEGATECALL (orch : Orchestrator) (pc : Nat) (interp : interpreter) (ctx : callCtx) :
    Option Outcome := do
  let (_, s1) ← Stack.Pop ctx.stack
  let (addr, s2) ← Stack.Pop s1
  let (a_offset, s3) ← Stack.Pop s2
  let (a_size, s4) ← Stack.Pop s3
  let (b_offset, s5) ← Stack.Pop s4
  let (b_size, stack) ← Stack.Pop s5
  let to_addr := U256.Bytes20 addr
  let input := ctx.memory.GetPtr (U256.Uint64 a_offset) (U256.Uint64 a_size)
  let evm := orch.delegate_call interp.evm ctx.contract to_addr input
  let bytes := evm.return_data (evm.level + 1)
  let bytes_size := bytes.length
  if bytes_size > 1 then
    some ⟨0, pc, { interp with evm := { evm with abort := true, result := false } },
      { ctx with stack := stack }⟩
  else if bytes_size = 1 then
    some ⟨0, pc, { interp with evm := evm },
      { ctx with
        stack := Stack.Push stack 1
        memory := ctx.memory.Set (U256.Uint64 b_offset) (U256.Uint64 b_size) (bytes.getD 0 []) }⟩
  else
    some ⟨0, pc, { interp with evm := { evm with abort := true, result := false } },
      { ctx with stack := stack }⟩

/-- `op_STATICCALL` of `instructions.go`: pop the arguments, hand over to the
orchestrator, then resolve on the number of payloads recorded one level up. -/
def op_STATICCALL (orch : Orchestrator) (pc : Nat) (interp : interpreter) (ctx : callCtx) :
    Option Outcome := do
  let (_, s1) ← Stack.Pop ctx.stack
  let (addr, s2) ← Stack.Pop s1
  let (a_offset, s3) ← Stack.Pop s2
  let (a_size, s4) ← Stack.Pop s3
  let (b_offset, s5) ← Stack.Pop s4
  let (b_size, stack) ← Stack.Pop s5
  let to_addr := U256.Bytes20 addr
  let input := ctx.memory.GetPtr (U256.Uint64 a_offset) (U256.Uint64 a_size)
  let evm := orch.static_call interp.evm ctx.contract to_addr input
  let bytes := evm.return_data (evm.level + 1)
  let bytes_size := bytes.length
  if bytes_size > 1 then
    some ⟨0, pc, { interp with evm := { evm with abort := true, result := false } },
      { ctx with stack := stack }⟩
  else if bytes_size = 1 then
    some ⟨0, pc, { interp with evm := evm },
      { ctx with
        stack := Stack.Push stack 1
        memory := ctx.memory.Set (U256.Uint64 b_offset) (U256.Uint64 b_size) (bytes.getD 0 []) }⟩
  else
    some ⟨0, pc, { interp with evm := { evm with abort := true, result := false } },
      { ctx with stack := stack }⟩

/-! ## Ternary arithmetic, byte store, push, create, return -/

/-- `op_ADDMOD` of `instructions.go`: a zero modulus clears the slot. -/
def op_ADDMOD (pc : Nat) (interp : interpreter) (ctx : callCtx) : Option Outcome := do
  let (x, s1) ← Stack.Pop ctx.stack
  let (y, s2) ← Stack.Pop s1
  let z ← Stack.Peek s2
  let r : Word := if U256.IsZero z then 0 else U256.AddMod x y z
  some ⟨0, pc, interp, { ctx with stack := Stack.setTop s2 r }⟩

/-- `op_MULMOD` of `instructions.go`: a zero modulus clears the slot. -/
def op_MULMOD (pc : Nat) (interp : interpreter) (ctx : callCtx) : Option Outcome := do
  let (x, s1) ← Stack.Pop ctx.stack
  let (y, s2) ← Stack.Pop s1
  let z ← Stack.Peek s2
  let r : Word := if U256.IsZero z then 0 else U256.MulMod x y z
  some ⟨0, pc, interp, { ctx with stack := Stack.setTop s2 r }⟩

/-- Modelled from the spec: `store` is the byte buffer of the memory, whose
declaration is not in `instructions.go`. The Go indexed assignment
`store[i] = b` overwrites the byte at `i` when `i` is below the length of the
buffer and is a run-time panic otherwise; it never changes the length. -/
def Memory.assignAt (m : Memory) (i : Nat) (b : Nat) : Option Memory :=
  if i < m.store.length then some ⟨m.store.set i b⟩ else none

/-- `op_MSTORE8` of `instructions.go`: an indexed assignment into
`ctx.memory.store`, with no call of a memory method. -/
def op_MSTORE8 (pc : Nat) (interp : interpreter) (ctx : callCtx) : Option Outcome := do
  let (off, s1) ← Stack.Pop ctx.stack
  let (val, stack) ← Stack.Pop s1
  let memory ← ctx.memory.assignAt (U256.Uint64 off) (U256.Uint64 val % 256)
  some ⟨0, pc, interp, { ctx with stack := stack, memory := memory }⟩

/-- `op_PUSH1` of `instructions.go`: `*pc++` in `uint64`, then the code byte
at the new `pc`, or zero at or past the end of the code. -/
def op_PUSH1 (pc : Nat) (interp : interpreter) (ctx : callCtx) : Option Outcome :=
  let codeLen := ctx.contract.Code.length % u64Mod
  let pc1 := (pc + 1) % u64Mod
  if pc1 < codeLen then
    some ⟨0, pc1, interp,
      { ctx with stack := Stack.Push ctx.stack (ctx.contract.Code.getD pc1 0 % 256) }⟩
  else
    some ⟨0, pc1, interp, { ctx with stack := Stack.Push ctx.stack 0 }⟩

/-- Modelled from the spec: the orchestrator operations `create` and `create2`
of `in.evm` are not in `instructions.go`. Each is an arbitrary transformer of
the EVM record, given the calling contract, the input payload, the value and
(for `create2`) the salt. -/
structure CreateOrchestrator where
  /-- `evm.create(contract, input, value)`. -/
  create : EVM → Contract → Bytes → Word → EVM
  /-- `evm.create2(contract, input, endowment, salt)`. -/
  create2 : EVM → Contract → Bytes → Word → Word → EVM

/-- `address.Bytes()`: the 20 big-endian bytes of an address. -/
def addressBytes (a : Address) : Bytes := U256.toBytesBE 20 a

/-- `op_CREATE` of `instructions.go`. -/
def op_CREATE (orch : CreateOrchestrator) (pc : Nat) (interp : interpreter) (ctx : callCtx) :
    Option Outcome := do
  let (value, s1) ← Stack.Pop ctx.stack
  let (offset, s2) ← Stack.Pop s1
  let (size, stack) ← Stack.Pop s2
  let input := ctx.memory.GetCopy (U256.Uint64 offset) (U256.Uint64 size)
  let evm := orch.create interp.evm ctx.contract input value
  let address := evm.create_addr (evm.level + 1)
  let addr := U256.SetBytes (addressBytes address)
  some ⟨0, pc, { interp with evm := evm }, { ctx with stack := Stack.Push stack addr }⟩

/-- `op_CREATE2` of `instructions.go`. -/
def op_CREATE2 (orch : CreateOrchestrator) (pc : Nat) (interp : interpreter) (ctx : callCtx) :
    Option Outcome := do
  let (endowment, s1) ← Stack.Pop ctx.stack
  let (offset, s2) ← Stack.Pop s1
  let (size, s3) ← Stack.Pop s2
  let (salt, stack) ← Stack.Pop s3
  let input := ctx.memory.GetCopy (U256.Uint64 offset) (U256.Uint64 size)
  let evm := orch.create2 interp.evm ctx.contract input endowment salt
  let address := evm.create_addr (evm.level + 1)
  let addr := U256.SetBytes (addressBytes address)
  some ⟨0, pc, { interp with evm := evm }, { ctx with stack := Stack.Push stack addr }⟩

/-- Modelled from the spec: `return_data.add(level, data)` is not in
`instructions.go`. It records `data` as the newest payload of `level` and
leaves the payloads of every other level as they are. -/
def returnDataAdd (t : Nat → List Bytes) (level : Nat) (data : Bytes) : Nat → List Bytes :=
  fun l => if l = level then t l ++ [data] else t l

/-- `op_RETURN` of `instructions.go`. -/
def op_RETURN (pc : Nat) (interp : interpreter) (ctx : callCtx) : Option Outcome := do
  let (offset, s1) ← Stack.Pop ctx.stack
  let (size, stack) ← Stack.Pop s1
  let data := ctx.memory.GetPtr (U256.Uint64 offset) (U256.Uint64 size)
  if data.length > 0 then
    some ⟨0, pc,
      { interp with evm := { interp.evm with
          return_data := returnDataAdd interp.evm.return_data interp.evm.level data } },
      { ctx with stack := stack }⟩
  else
    some ⟨0, pc, interp, { ctx with stack := stack }⟩

/-- `op_REVERT` of `instructions.go`. -/
def op_REVERT (pc : Nat) (interp : interpreter) (ctx : callCtx) : Option Outcome := do
  let (offset, s1) ← Stack.Pop ctx.stack
  let (size, stack) ← Stack.Pop s1
  let data := ctx.memory.GetPtr (U256.Uint64 offset) (U256.Uint64 size)
  if data.length > 0 then
    some ⟨0, pc,
      { interp with evm := { interp.evm with
          return_data := returnDataAdd interp.evm.return_data interp.evm.level data } },
      { ctx with stack := stack }⟩
  else
    some ⟨0, pc, interp, { ctx with stack := stack }⟩

/-! ## Self-destruct and the generic push -/

/-- Modelled from the spec: `add_balance(addr, amount)` of the storage overlay
is not in `instructions.go`. It adds `amount` to the overlay balance of `addr`
in 256-bit arithmetic, an absent entry counting as zero, and leaves the entry
of every other address as it is. -/
def MockState.add_balance (m : MockState) (a : Address) (amount : Word) : MockState :=
  { m with
    balances := fun a' =>
      if a' = a then some (U256.Add ((m.balances a).getD 0) amount) else m.balances a' }

/-- `op_SELFDESTRUCT` of `instructions.go`: the balance of the executing
contract (overlay first, else committed) is added to the overlay balance of
the beneficiary; one READ is recorded for the executing contract and the
`suicide` flag is set. -/
def op_SELFDESTRUCT (pc : Nat) (interp : interpreter) (ctx : callCtx) : Option Outcome := do
  let (beneficiary, stack) ← Stack.Pop ctx.stack
  let callerAddr := ctx.contract.address
  let beneficiaryAddr := U256.Bytes20 beneficiary
  let balance :=
    match interp.evm.mstate.get_balance callerAddr with
    | some b => b
    | none => interp.evm.state.GetBalance callerAddr
  some ⟨0, pc,
    { interp with evm := { interp.evm with
        mstate := interp.evm.mstate.add_balance beneficiaryAddr balance
        rw_set := interp.evm.rw_set.add callerAddr Access.READ
        suicide := true } },
    { ctx with stack := stack }⟩

/-- The Go conversion `int(x)` of a `uint64`: values from `2 ^ 63` on become
negative. -/
def toInt64 (x : Nat) : Int :=
  if x % u64Mod < 2 ^ 63 then ((x % u64Mod : Nat) : Int) else ((x % u64Mod : Nat) : Int) - 2 ^ 64

/-- `common.RightPadBytes(slice, l)`: the slice itself when it already has `l`
bytes or more, otherwise the slice followed by zero bytes up to length `l`. -/
def RightPadBytes (slice : Bytes) (l : Int) : Bytes :=
  if l ≤ (slice.length : Int) then slice
  else slice ++ List.replicate (l.toNat - slice.length) 0

/-- The Go slice expression `code[lo:hi]` with `int` bounds: a run-time panic
unless `0 ≤ lo ≤ hi ≤ len(code)`. -/
def sliceInt (code : Bytes) (lo hi : Int) : Option Bytes :=
  if 0 ≤ lo ∧ lo ≤ hi ∧ hi ≤ (code.length : Int) then
    some ((code.drop lo.toNat).take (hi.toNat - lo.toNat))
  else none

/-- `makePush(size, pushByteSize)` of `instructions.go`: the handler the
closure returns. -/
def makePush (size : Nat) (pushByteSize : Int) (pc : Nat) (interp : interpreter)
    (ctx : callCtx) : Option Outcome := do
  let codeLen : Int := (ctx.contract.Code.length : Int)
  let startMin0 : Int := toInt64 (pc + 1)
  let startMin : Int := if startMin0 ≥ codeLen then codeLen else startMin0
  let endMin : Int := if startMin + pushByteSize ≥ codeLen then codeLen else startMin + pushByteSize
  let slice ← sliceInt ctx.contract.Code startMin endMin
  let integer := U256.SetBytes (RightPadBytes slice pushByteSize)
  some ⟨0, (pc + size) % u64Mod, interp, { ctx with stack := Stack.Push ctx.stack integer }⟩

/-- The exponentiation the specification names: `base ^ exponent` modulo
`2 ^ 256`, with `0 ^ 0 = 1`. -/
def expSpec (base exponent : Nat) : Nat := base ^ exponent % 2 ^ 256

/-- The word the specification of PUSH1 names: the code byte at `pc + 1`, or
zero when `pc + 1` is at or past the end of the code. -/
def push1Spec (code : Bytes) (pc : Nat) : Word :=
  if pc + 1 < code.length then code.getD (pc + 1) 0 % 256 else 0

/-! ## Fixtures for concrete evaluation -/

/-- The two-operand handlers, in source order. -/
def binaryHandlers : List (Nat → interpreter → callCtx → Option Outcome) :=
  [op_ADD, op_MUL, op_SUB, op_DIV, op_SDIV, op_MOD, op_SMOD, op_EXP, op_SIGNEXTEND,
   op_LT, op_GT, op_SLT, op_SGT, op_EQ, op_AND, op_OR, op_XOR, op_BYTE,
   op_SHL, op_SHR, op_SAR]

/-- An overlay with no entry. -/
def emptyOverlay : MockState := ⟨fun _ => none, fun _ _ => none⟩

/-- A committed state in which every balance and every slot holds `v`. -/
def constState (v : Word) : CommittedState :=
  ⟨fun _ => v, fun _ _ => v, fun _ => [], fun _ => 0, fun _ => [], fun _ => true⟩

/-- An EVM record at level 0 with the given overlay, committed state, block
number and return-payload table; the 32-byte block hash is the word `0xabcd`. -/
def mkEVM (ms : MockState) (st : CommittedState) (number : Nat)
    (rd : Nat → List Bytes) : EVM :=
  { mstate := ms, state := st, rw_set := [], return_data := rd, create_addr := fun _ => 0,
    level := 0, abort := false, result := true, suicide := false,
    block := ⟨number, List.replicate 30 0 ++ [0xab, 0xcd]⟩ }

/-- A contract at address `0xaa` whose validity check accepts exactly the
destinations below `bound`. -/
def mkContract (bound : Nat) : Contract :=
  ⟨[], 0xaa, 0xbb, 0, [], fun d => decide (d < bound)⟩

/-- An orchestrator that leaves the EVM record as it is. -/
def idleOrchestrator : Orchestrator :=
  ⟨fun e _ _ _ _ => e, fun e _ _ _ _ => e, fun e _ _ _ => e, fun e _ _ _ => e⟩

/-- An interpreter with a zeroed hashing buffer around `mkEVM`. -/
def mkInterp (ms : MockState) (st : CommittedState) (number : Nat)
    (rd : Nat → List Bytes) : interpreter :=
  ⟨List.replicate 32 0, mkEVM ms st number rd⟩

/-- A contract at address `0xaa` running the given code. -/
def mkCodeContract (code : Bytes) : Contract :=
  ⟨code, 0xaa, 0xbb, 0, [], fun _ => false⟩

/-- A create orchestrator that records `a` as the address created at level 1
and replaces the return-payload table by `rd`. -/
def recordingCreator (a : Address) (rd : Nat → List Bytes) : CreateOrchestrator :=
  ⟨fun e _ _ _ => { e with create_addr := fun _ => a, return_data := rd },
   fun e _ _ _ _ => { e with create_addr := fun _ => a, return_data := rd }⟩

/-- The create orchestrator `orch` with the return-payload table of its
result replaced by `rd`. -/
def CreateOrchestrator.withReturnData (orch : CreateOrchestrator) (rd : Nat → List Bytes) :
    CreateOrchestrator :=
  ⟨fun e c i v => { orch.create e c i v with return_data := rd },
   fun e c i v s => { orch.create2 e c i v s with return_data := rd }⟩

/-- An overlay whose only entries are the balance `b1` of address `a1` and the
balance `b2` of address `a2`. -/
def twoBalances (a1 : Address) (b1 : Word) (a2 : Address) (b2 : Word) : MockState :=
  ⟨fun a => if a = a1 then some b1 else if a = a2 then some b2 else none, fun _ _ => none⟩

/-! ## Outcome predicates of the call resolution -/

/-- The payloads `return_data.get(level + 1)` of an EVM record. -/
def payloads (e : EVM) : List Bytes := e.return_data (e.level + 1)

/-- The handler returned 0 with `abort = true` and `result = false`, with the
stack `rest` and the memory `m`. -/
def abortsWith (r : Option Outcome) (rest : Stack) (m : Memory) : Prop :=
  ∃ o, r = some o ∧ o.ret = 0 ∧ o.interp.evm.abort = true ∧ o.interp.evm.result = false
    ∧ o.ctx.stack = rest ∧ o.ctx.memory = m

/-- The handler returned 0 with the payload `X`, cut or zero-padded to the
destination size, readable at the destination offset, the word 1 on top of
`rest`, and the two flags as they are in the record `e`. -/
def resolvesWith (r : Option Outcome) (e : EVM) (X : Bytes) (b_offset b_size : Word)
    (rest : Stack) : Prop :=
  ∃ o, r = some o ∧ o.ret = 0
    ∧ o.ctx.memory.GetPtr (U256.Uint64 b_offset) (U256.Uint64 b_size)
        = Memory.fit (U256.Uint64 b_size) X
    ∧ o.ctx.stack = 1 :: rest
    ∧ o.interp.evm.abort = e.abort ∧ o.interp.evm.result = e.result

/-! ## Lemmas on words and memory -/

/-- Folding the big-endian bytes of `n` back gives `n` modulo `256 ^ len`. -/
theorem U256.foldl_toBytesBE (len n acc : Nat) :
    (U256.toBytesBE len n).foldl (fun a b => a * 256 + b % 256) acc
      = acc * 256 ^ len + n % 256 ^ len := by
  induction len generalizing acc with
  | zero => simp [U256.toBytesBE, Nat.mod_one]
  | succ k ih =>
    simp only [U256.toBytesBE, List.foldl_cons, ih, Nat.mod_mod]
    rw [Nat.mod_pow_succ (b := 256) (k := k)]
    ring

/-- `SetBytes` undoes `Bytes32` on every 256-bit word. -/
theorem U256.setBytes_bytes32 (z : Word) (hz : z < 2 ^ 256) :
    U256.SetBytes (U256.Bytes32 z) = z := by
  have h256 : (256 : Nat) ^ 32 = 2 ^ 256 := by norm_num
  simp only [U256.SetBytes, U256.Bytes32, U256.foldl_toBytesBE, wordMod, zero_mul, zero_add, h256,
    Nat.mod_mod]
  exact Nat.mod_eq_of_lt hz

/-- Distinct 256-bit slot words have distinct 32-byte slot keys. -/
theorem U256.bytes32_injective (x y : Word) (hx : x < 2 ^ 256) (hy : y < 2 ^ 256)
    (h : U256.Bytes32 x = U256.Bytes32 y) : x = y := by
  rw [← U256.setBytes_bytes32 x hx, ← U256.setBytes_bytes32 y hy, h]

/-- A fitted value has exactly the requested size. -/
theorem Memory.length_fit (size : Nat) (value : Bytes) :
    (Memory.fit size value).length = size := by
  simp only [Memory.fit, List.length_append, List.length_take, List.length_replicate]
  omega

/-- Reading back the range just written gives the fitted value. -/
theorem Memory.getPtr_set (m : Memory) (offset size : Nat) (value : Bytes) :
    (m.Set offset size value).GetPtr offset size = Memory.fit size value := by
  by_cases hs : size = 0
  · subst hs
    simp [Memory.Set, Memory.GetPtr, Memory.fit]
  · apply List.ext_getElem
    · simp [Memory.GetPtr, Memory.length_fit]
    · intro i h1 h2
      have hi : i < size := by simpa [Memory.length_fit] using h2
      have hlen : (List.take offset
          (m.store ++ List.replicate (offset + size - m.store.length) 0)).length = offset := by
        simp only [List.length_take, List.length_append, List.length_replicate]
        omega
      simp only [Memory.GetPtr, Memory.Set, if_neg hs, List.getElem_map, List.getElem_range,
        List.append_assoc]
      rw [List.getD_eq_getElem?_getD, List.getElem?_append_right (by omega), hlen,
        Nat.add_sub_cancel_left, List.getElem?_append_left (by simpa [Memory.length_fit] using hi),
        List.getElem?_eq_getElem h2]
      rfl

/-! ## Call resolution, handler by handler -/

/-- `op_CALL` with no payload or several payloads one level up: abort. -/
theorem op_CALL_abort (orch : Orchestrator) (pc : Nat) (interp : interpreter) (c : Contract)
    (g addr value a_offset a_size b_offset b_size : Word) (rest : Stack) (m : Memory)
    (h : (payloads (orch.call interp.evm c (U256.Bytes20 addr)
        (m.GetPtr (U256.Uint64 a_offset) (U256.Uint64 a_size)) value)).length ≠ 1) :
    abortsWith (op_CALL orch pc interp
      ⟨c, g :: addr :: value :: a_offset :: a_size :: b_offset :: b_size :: rest, m⟩) rest m := by
  simp only [payloads] at h
  simp only [abortsWith, op_CALL, Stack.Pop, Option.bind_eq_bind, Option.some_bind, if_neg h]
  split <;> exact ⟨_, rfl, rfl, rfl, rfl, rfl, rfl⟩

/-- `op_CALL` with exactly one payload one level up: copy it and push 1. -/
theorem op_CALL_resolve (orch : Orchestrator) (pc : Nat) (interp : interpreter) (c : Contract)
    (g addr value a_offset a_size b_offset b_size : Word) (rest : Stack) (m : Memory) (X : Bytes)
    (h : payloads (orch.call interp.evm c (U256.Bytes20 addr)
        (m.GetPtr (U256.Uint64 a_offset) (U256.Uint64 a_size)) value) = [X]) :
    resolvesWith (op_CALL orch pc interp
      ⟨c, g :: addr :: value :: a_offset :: a_size :: b_offset :: b_size :: rest, m⟩)
      (orch.call interp.evm c (U256.Bytes20 addr)
        (m.GetPtr (U256.Uint64 a_offset) (U256.Uint64 a_size)) value) X b_offset b_size rest := by
  simp only [payloads] at h
  simp only [resolvesWith, op_CALL, Stack.Pop, Option.bind_eq_bind, Option.some_bind, h,
    List.length_singleton, gt_iff_lt, lt_self_iff_false, if_false, if_true]
  exact ⟨_, rfl, rfl, Memory.getPtr_set _ _ _ _, rfl, rfl, rfl⟩

/-- `op_CALLCODE` with no payload or several payloads one level up: abort. -/
theorem op_CALLCODE_abort (orch : Orchestrator) (pc : Nat) (interp : interpreter) (c : Contract)
    (g addr value a_offset a_size b_offset b_size : Word) (rest : Stack) (m : Memory)
    (h : (payloads (orch.call_code interp.evm c (U256.Bytes20 addr)
        (m.GetPtr (U256.Uint64 a_offset) (U256.Uint64 a_size)) value)).length ≠ 1) :
    abortsWith (op_CALLCODE orch pc interp
      ⟨c, g :: addr :: value :: a_offset :: a_size :: b_offset :: b_size :: rest, m⟩) rest m := by
  simp only [payloads] at h
  simp only [abortsWith, op_CALLCODE, Stack.Pop, Option.bind_eq_bind, Option.some_bind, if_neg h]
  split <;> exact ⟨_, rfl, rfl, rfl, rfl, rfl, rfl⟩

/-- `op_CALLCODE` with exactly one payload one level up: copy it and push 1. -/
theorem op_CALLCODE_resolve (orch : Orchestrator) (pc : Nat) (interp : interpreter) (c : Contract)
    (g addr value a_offset a_size b_offset b_size : Word) (rest : Stack) (m : Memory) (X : Bytes)
    (h : payloads (orch.call_code interp.evm c (U256.Bytes20 addr)
        (m.GetPtr (U256.Uint64 a_offset) (U256.Uint64 a_size)) value) = [X]) :
    resolvesWith (op_CALLCODE orch pc interp
      ⟨c, g :: addr :: value :: a_offset :: a_size :: b_offset :: b_size :: rest, m⟩)
      (orch.call_code interp.evm c (U256.Bytes20 addr)
        (m.GetPtr (U256.Uint64 a_offset) (U256.Uint64 a_size)) value) X b_offset b_size rest := by
  simp only [payloads] at h
  simp only [resolvesWith, op_CALLCODE, Stack.Pop, Option.bind_eq_bind, Option.some_bind, h,
    List.length_singleton, gt_iff_lt, lt_self_iff_false, if_false, if_true]
  exact ⟨_, rfl, rfl, Memory.getPtr_set _ _ _ _, rfl, rfl, rfl⟩

/-- `op_DELEGATECALL` with no payload or several payloads one level up: abort. -/
theorem op_DELEGATECALL_abort (orch : Orchestrator) (pc : Nat) (interp : interpreter) (c : Contract)
    (g addr a_offset a_size b_offset b_size : Word) (rest : Stack) (m : Memory)
    (h : (payloads (orch.delegate_call interp.evm c (U256.Bytes20 addr)
        (m.GetPtr (U256.Uint64 a_offset) (U256.Uint64 a_size)))).length ≠ 1) :
    abortsWith (op_DELEGATECALL orch pc interp
      ⟨c, g :: addr :: a_offset :: a_size :: b_offset :: b_size :: rest, m⟩) rest m := by
  simp only [payloads] at h
  simp only [abortsWith, op_DELEGATECALL, Stack.Pop, Option.bind_eq_bind, Option.some_bind, if_neg h]
  split <;> exact ⟨_, rfl, rfl, rfl, rfl, rfl, rfl⟩

/-- `op_DELEGATECALL` with exactly one payload one level up: copy it and push 1. -/
theorem op_DELEGATECALL_resolve (orch : Orchestrator) (pc : Nat) (interp : interpreter) (c : Contract)
    (g addr a_offset a_size b_offset b_size : Word) (rest : Stack) (m : Memory) (X : Bytes)
    (h : payloads (orch.delegate_call interp.evm c (U256.Bytes20 addr)
        (m.GetPtr (U256.Uint64 a_offset) (U256.Uint64 a_size))) = [X]) :
    resolvesWith (op_DELEGATECALL orch pc interp
      ⟨c, g :: addr :: a_offset :: a_size :: b_offset :: b_size :: rest, m⟩)
      (orch.delegate_call interp.evm c (U256.Bytes20 addr)
        (m.GetPtr (U256.Uint64 a_offset) (U256.Uint64 a_size))) X b_offset b_size rest := by
  simp only [payloads] at h
  simp only [resolvesWith, op_DELEGATECALL, Stack.Pop, Option.bind_eq_bind, Option.some_bind, h,
    List.length_singleton, gt_iff_lt, lt_self_iff_false, if_false, if_true]
  exact ⟨_, rfl, rfl, Memory.getPtr_set _ _ _ _, rfl, rfl, rfl⟩

/-- `op_STATICCALL` with no payload or several payloads one level up: abort. -/
theorem op_STATICCALL_abort (orch : Orchestrator) (pc : Nat) (interp : interpreter) (c : Contract)
    (g addr a_offset a_size b_offset b_size : Word) (rest : Stack) (m : Memory)
    (h : (payloads (orch.static_call interp.evm c (U256.Bytes20 addr)
        (m.GetPtr (U256.Uint64 a_offset) (U256.Uint64 a_size)))).length ≠ 1) :
    abortsWith (op_STATICCALL orch pc interp
      ⟨c, g :: addr :: a_offset :: a_size :: b_offset :: b_size :: rest, m⟩) rest m := by
  simp only [payloads] at h
  simp only [abortsWith, op_STATICCALL, Stack.Pop, Option.bind_eq_bind, Option.some_bind, if_neg h]
  split <;> exact ⟨_, rfl, rfl, rfl, rfl, rfl, rfl⟩

/-- `op_STATICCALL` with exactly one payload one level up: copy it and push 1. -/
theorem op_STATICCALL_resolve (orch : Orchestrator) (pc : Nat) (interp : interpreter) (c : Contract)
    (g addr a_offset a_size b_offset b_size : Word) (rest : Stack) (m : Memory) (X : Bytes)
    (h : payloads (orch.static_call interp.evm c (U256.Bytes20 addr)
        (m.GetPtr (U256.Uint64 a_offset) (U256.Uint64 a_size))) = [X]) :
    resolvesWith (op_STATICCALL orch pc interp
      ⟨c, g :: addr :: a_offset :: a_size :: b_offset :: b_size :: rest, m⟩)
      (orch.static_call interp.evm c (U256.Bytes20 addr)
        (m.GetPtr (U256.Uint64 a_offset) (U256.Uint64 a_size))) X b_offset b_size rest := by
  simp only [payloads] at h
  simp only [resolvesWith, op_STATICCALL, Stack.Pop, Option.bind_eq_bind, Option.some_bind, h,
    List.length_singleton, gt_iff_lt, lt_self_iff_false, if_false, if_true]
  exact ⟨_, rfl, rfl, Memory.getPtr_set _ _ _ _, rfl, rfl, rfl⟩

/-! ## The claims -/

/-- C1: for op_CALL, op_CALLCODE, op_DELEGATECALL and op_STATICCALL, on every
state whose stack holds the 7 (or 6) arguments above `rest`: when, once the
orchestrator has returned, the return-payload table at level + 1 holds no
payload or more than one, the handler returns 0 with abort = true and
result = false, the stack is exactly `rest` (nothing pushed) and the memory is
the input memory. -/
theorem call_family_aborts_unless_one_payload (orch : Orchestrator) (pc : Nat)
    (interp : interpreter) (c : Contract)
    (g addr value a_offset a_size b_offset b_size : Word) (rest : Stack) (m : Memory) :
    (((payloads (orch.call interp.evm c (U256.Bytes20 addr)
          (m.GetPtr (U256.Uint64 a_offset) (U256.Uint64 a_size)) value)).length = 0 ∨ 1 < (payloads (orch.call interp.evm c (U256.Bytes20 addr)
          (m.GetPtr (U256.Uint64 a_offset) (U256.Uint64 a_size)) value)).length) →
        abortsWith (op_CALL orch pc interp ⟨c, g :: addr :: value :: a_offset :: a_size :: b_offset :: b_size :: rest, m⟩) rest m)
    ∧ (((payloads (orch.call_code interp.evm c (U256.Bytes20 addr)
          (m.GetPtr (U256.Uint64 a_offset) (U256.Uint64 a_size)) value)).length = 0 ∨ 1 < (payloads (orch.call_code interp.evm c (U256.Bytes20 addr)
          (m.GetPtr (U256.Uint64 a_offset) (U256.Uint64 a_size)) value)).length) →
        abortsWith (op_CALLCODE orch pc interp ⟨c, g :: addr :: value :: a_offset :: a_size :: b_offset :: b_size :: rest, m⟩) rest m)
    ∧ (((payloads (orch.delegate_call interp.evm c (U256.Bytes20 addr)
          (m.GetPtr (U256.Uint64 a_offset) (U256.Uint64 a_size)))).length = 0 ∨ 1 < (payloads (orch.delegate_call interp.evm c (U256.Bytes20 addr)
          (m.GetPtr (U256.Uint64 a_offset) (U256.Uint64 a_size)))).length) →
        abortsWith (op_DELEGATECALL orch pc interp ⟨c, g :: addr :: a_offset :: a_size :: b_offset :: b_size :: rest, m⟩) rest m)
    ∧ (((payloads (orch.static_call interp.evm c (U256.Bytes20 addr)
          (m.GetPtr (U256.Uint64 a_offset) (U256.Uint64 a_size)))).length = 0 ∨ 1 < (payloads (orch.static_call interp.evm c (U256.Bytes20 addr)
          (m.GetPtr (U256.Uint64 a_offset) (U256.Uint64 a_size)))).length) →
        abortsWith (op_STATICCALL orch pc interp ⟨c, g :: addr :: a_offset :: a_size :: b_offset :: b_size :: rest, m⟩) rest m) := by
  refine ⟨?_, ?_, ?_, ?_⟩
  · intro h
    exact op_CALL_abort orch pc interp c g addr value a_offset a_size b_offset b_size rest m
      (by omega)
  · intro h
    exact op_CALLCODE_abort orch pc interp c g addr value a_offset a_size b_offset b_size rest m
      (by omega)
  · intro h
    exact op_DELEGATECALL_abort orch pc interp c g addr a_offset a_size b_offset b_size rest m
      (by omega)
  · intro h
    exact op_STATICCALL_abort orch pc interp c g addr a_offset a_size b_offset b_size rest m
      (by omega)

/-- C1 at concrete inputs: op_CALL with an empty table and op_STATICCALL with
two payloads both abort and leave the stack `[9]` and the empty memory. -/
theorem call_family_aborts_unless_one_payload_witness :
    abortsWith (op_CALL idleOrchestrator 0 (mkInterp emptyOverlay (constState 0) 0 (fun _ => []))
        ⟨mkContract 0, [0, 0, 0, 0, 0, 0, 4, 9], ⟨[]⟩⟩) [9] ⟨[]⟩
    ∧ abortsWith (op_STATICCALL idleOrchestrator 0
        (mkInterp emptyOverlay (constState 0) 0 (fun _ => [[1], [2]]))
        ⟨mkContract 0, [0, 0, 0, 0, 0, 4, 9], ⟨[]⟩⟩) [9] ⟨[]⟩ :=
  ⟨(call_family_aborts_unless_one_payload idleOrchestrator 0
      (mkInterp emptyOverlay (constState 0) 0 (fun _ => [])) (mkContract 0)
      0 0 0 0 0 0 4 [9] ⟨[]⟩).1 (by decide),
   (call_family_aborts_unless_one_payload idleOrchestrator 0
      (mkInterp emptyOverlay (constState 0) 0 (fun _ => [[1], [2]])) (mkContract 0)
      0 0 0 0 0 0 4 [9] ⟨[]⟩).2.2.2 (by decide)⟩

/-- C2: for op_CALL, op_CALLCODE, op_DELEGATECALL and op_STATICCALL, on every
state whose stack holds the arguments above `rest`: when the return-payload
table at level + 1 holds exactly one payload X once the orchestrator has
returned, the handler returns 0, the b_size bytes of memory from b_offset
(both taken as the handler passes them, `Uint64()`) are X truncated or
zero-padded to that size, the stack is 1 on top of `rest`, and abort and
result are as the orchestrator left them. -/
theorem call_family_resolves_single_payload (orch : Orchestrator) (pc : Nat)
    (interp : interpreter) (c : Contract)
    (g addr value a_offset a_size b_offset b_size : Word) (rest : Stack) (m : Memory)
    (X : Bytes) :
    (payloads (orch.call interp.evm c (U256.Bytes20 addr)
          (m.GetPtr (U256.Uint64 a_offset) (U256.Uint64 a_size)) value) = [X] →
        resolvesWith (op_CALL orch pc interp ⟨c, g :: addr :: value :: a_offset :: a_size :: b_offset :: b_size :: rest, m⟩)
          (orch.call interp.evm c (U256.Bytes20 addr)
          (m.GetPtr (U256.Uint64 a_offset) (U256.Uint64 a_size)) value) X b_offset b_size rest)
    ∧ (payloads (orch.call_code interp.evm c (U256.Bytes20 addr)
          (m.GetPtr (U256.Uint64 a_offset) (U256.Uint64 a_size)) value) = [X] →
        resolvesWith (op_CALLCODE orch pc interp ⟨c, g :: addr :: value :: a_offset :: a_size :: b_offset :: b_size :: rest, m⟩)
          (orch.call_code interp.evm c (U256.Bytes20 addr)
          (m.GetPtr (U256.Uint64 a_offset) (U256.Uint64 a_size)) value) X b_offset b_size rest)
    ∧ (payloads (orch.delegate_call interp.evm c (U256.Bytes20 addr)
          (m.GetPtr (U256.Uint64 a_offset) (U256.Uint64 a_size))) = [X] →
        resolvesWith (op_DELEGATECALL orch pc interp ⟨c, g :: addr :: a_offset :: a_size :: b_offset :: b_size :: rest, m⟩)
          (orch.delegate_call interp.evm c (U256.Bytes20 addr)
          (m.GetPtr (U256.Uint64 a_offset) (U256.Uint64 a_size))) X b_offset b_size rest)
    ∧ (payloads (orch.static_call interp.evm c (U256.Bytes20 addr)
          (m.GetPtr (U256.Uint64 a_offset) (U256.Uint64 a_size))) = [X] →
        resolvesWith (op_STATICCALL orch pc interp ⟨c, g :: addr :: a_offset :: a_size :: b_offset :: b_size :: rest, m⟩)
          (orch.static_call interp.evm c (U256.Bytes20 addr)
          (m.GetPtr (U256.Uint64 a_offset) (U256.Uint64 a_size))) X b_offset b_size rest) := by
  refine ⟨?_, ?_, ?_, ?_⟩
  · exact op_CALL_resolve orch pc interp c g addr value a_offset a_size b_offset b_size rest m X
  · exact op_CALLCODE_resolve orch pc interp c g addr value a_offset a_size b_offset b_size
      rest m X
  · exact op_DELEGATECALL_resolve orch pc interp c g addr a_offset a_size b_offset b_size
      rest m X
  · exact op_STATICCALL_resolve orch pc interp c g addr a_offset a_size b_offset b_size rest m X

/-- C2 at concrete inputs: with the single payload `[1, 2, 3]`, op_CALL with
destination size 5 leaves `[1, 2, 3, 0, 0]` readable at offset 0, and
op_DELEGATECALL with destination size 2 leaves `[1, 2]`. -/
theorem call_family_resolves_single_payload_witness :
    resolvesWith (op_CALL idleOrchestrator 0
        (mkInterp emptyOverlay (constState 0) 0 (fun _ => [[1, 2, 3]]))
        ⟨mkContract 0, [0, 0, 0, 0, 0, 0, 5, 9], ⟨[]⟩⟩)
      (mkEVM emptyOverlay (constState 0) 0 (fun _ => [[1, 2, 3]])) [1, 2, 3] 0 5 [9]
    ∧ resolvesWith (op_DELEGATECALL idleOrchestrator 0
        (mkInterp emptyOverlay (constState 0) 0 (fun _ => [[1, 2, 3]]))
        ⟨mkContract 0, [0, 0, 0, 0, 0, 2, 9], ⟨[7, 7, 7]⟩⟩)
      (mkEVM emptyOverlay (constState 0) 0 (fun _ => [[1, 2, 3]])) [1, 2, 3] 0 2 [9] :=
  ⟨(call_family_resolves_single_payload idleOrchestrator 0
      (mkInterp emptyOverlay (constState 0) 0 (fun _ => [[1, 2, 3]])) (mkContract 0)
      0 0 0 0 0 0 5 [9] ⟨[]⟩ [1, 2, 3]).1 rfl,
   (call_family_resolves_single_payload idleOrchestrator 0
      (mkInterp emptyOverlay (constState 0) 0 (fun _ => [[1, 2, 3]])) (mkContract 0)
      0 0 0 0 0 0 2 [9] ⟨[7, 7, 7]⟩ [1, 2, 3]).2.2.1 rfl⟩

/-- C3: for every contract, slot word s, value word v, overlay and committed
state: op_SSTORE with s on top and v below it, followed by op_SLOAD with s on
top, leaves v in the slot that held s; the committed state is the one the
run started with, whatever it holds for that slot. -/
theorem sstore_then_sload_roundtrip (pc pc2 : Nat) (interp : interpreter) (c : Contract)
    (s v : Word) (rest rest2 : Stack) (m m2 : Memory) :
    ∃ o1 o2, op_SSTORE pc interp ⟨c, s :: v :: rest, m⟩ = some o1
      ∧ op_SLOAD pc2 o1.interp ⟨c, s :: rest2, m2⟩ = some o2
      ∧ o2.ctx.stack = v :: rest2
      ∧ o2.interp.evm.state = interp.evm.state := by
  refine ⟨_, _, rfl, rfl, ?_, rfl⟩
  simp [op_SSTORE, op_SLOAD, Stack.Pop, Stack.Peek, Stack.setTop, MockState.get_state,
    MockState.set_state]

/-- C4: on every state with s on top of the stack and v below it, op_SSTORE
leaves the committed state unchanged, makes the overlay entry for (executing
contract's address, key of s) hold v, leaves every other overlay storage entry
(in particular that of every other 256-bit slot word), every overlay balance
and all of memory unchanged, pops the two words and returns 0. -/
theorem sstore_writes_overlay_only (pc : Nat) (interp : interpreter) (c : Contract) (s v : Word)
    (rest : Stack) (m : Memory) :
    ∃ o, op_SSTORE pc interp ⟨c, s :: v :: rest, m⟩ = some o
      ∧ o.interp.evm.state = interp.evm.state
      ∧ o.interp.evm.mstate.get_state c.address (U256.Bytes32 s) = some v
      ∧ (∀ a key, ¬ (a = c.address ∧ key = U256.Bytes32 s) →
          o.interp.evm.mstate.get_state a key = interp.evm.mstate.get_state a key)
      ∧ (∀ s2, s < 2 ^ 256 → s2 < 2 ^ 256 → s2 ≠ s →
          o.interp.evm.mstate.get_state c.address (U256.Bytes32 s2)
            = interp.evm.mstate.get_state c.address (U256.Bytes32 s2))
      ∧ o.interp.evm.mstate.balances = interp.evm.mstate.balances
      ∧ o.ctx.memory = m
      ∧ o.ctx.stack = rest ∧ o.ret = 0 := by
  have key_frame : ∀ a key, ¬ (a = c.address ∧ key = U256.Bytes32 s) →
      (interp.evm.mstate.set_state c.address (U256.Bytes32 s) v).get_state a key
        = interp.evm.mstate.get_state a key := by
    intro a key hne
    simp only [MockState.get_state, MockState.set_state]
    rw [if_neg hne]
  refine ⟨_, rfl, rfl, ?_, key_frame, ?_, rfl, rfl, rfl, rfl⟩
  · simp [MockState.get_state, MockState.set_state]
  · intro s2 hs hs2 hne
    apply key_frame
    rintro ⟨-, hkey⟩
    exact hne (U256.bytes32_injective s2 s hs2 hs hkey)

/-- C5: op_SLOAD (slot of the executing contract) and op_BALANCE (balance of
the queried address) on every state: when the overlay holds an entry w for
the queried item the handler leaves w (zero included, whatever the committed
value), and when the overlay holds no entry it leaves the committed value. -/
theorem overlay_first_committed_second (pc : Nat) (interp : interpreter) (c : Contract)
    (s a : Word) (rest : Stack) (m : Memory) :
    (∀ w, interp.evm.mstate.get_state c.address (U256.Bytes32 s) = some w →
      ∃ o, op_SLOAD pc interp ⟨c, s :: rest, m⟩ = some o ∧ o.ctx.stack = w :: rest)
    ∧ (interp.evm.mstate.get_state c.address (U256.Bytes32 s) = none →
      ∃ o, op_SLOAD pc interp ⟨c, s :: rest, m⟩ = some o
        ∧ o.ctx.stack = interp.evm.state.GetState c.address (U256.Bytes32 s) :: rest)
    ∧ (∀ w, interp.evm.mstate.get_balance (U256.Bytes20 a) = some w →
      ∃ o, op_BALANCE pc interp ⟨c, a :: rest, m⟩ = some o ∧ o.ctx.stack = w :: rest)
    ∧ (interp.evm.mstate.get_balance (U256.Bytes20 a) = none →
      ∃ o, op_BALANCE pc interp ⟨c, a :: rest, m⟩ = some o
        ∧ o.ctx.stack = interp.evm.state.GetBalance (U256.Bytes20 a) :: rest) := by
  refine ⟨?_, ?_, ?_, ?_⟩
  · intro w h
    exact ⟨_, rfl, by simp [Stack.setTop, h]⟩
  · intro h
    exact ⟨_, rfl, by simp [Stack.setTop, h]⟩
  · intro w h
    exact ⟨_, rfl, by simp [Stack.setTop, h]⟩
  · intro h
    exact ⟨_, rfl, by simp [Stack.setTop, h]⟩

/-- C5 at concrete inputs: the overlay holds 0 for slot 1 of the contract and
the committed state holds 7 everywhere, and op_SLOAD leaves 0; with an empty
overlay op_BALANCE leaves the committed 7. -/
theorem overlay_first_committed_second_witness :
    (∃ o, op_SLOAD 0 (mkInterp (emptyOverlay.set_state 0xaa (U256.Bytes32 1) 0) (constState 7) 0
          (fun _ => [])) ⟨mkContract 0, [1], ⟨[]⟩⟩ = some o
      ∧ o.ctx.stack = [0])
    ∧ (∃ o, op_BALANCE 0 (mkInterp emptyOverlay (constState 7) 0 (fun _ => []))
          ⟨mkContract 0, [5], ⟨[]⟩⟩ = some o
      ∧ o.ctx.stack = [7]) :=
  ⟨(overlay_first_committed_second 0
      (mkInterp (emptyOverlay.set_state 0xaa (U256.Bytes32 1) 0) (constState 7) 0 (fun _ => []))
      (mkContract 0) 1 5 [] ⟨[]⟩).1 0 (by decide),
   (overlay_first_committed_second 0 (mkInterp emptyOverlay (constState 7) 0 (fun _ => []))
      (mkContract 0) 1 5 [] ⟨[]⟩).2.2.2 rfl⟩

/-- The handlers that call `rw_set.add` do so once: op_BALANCE, op_EXTCODESIZE
and op_EXTCODEHASH record one READ for the queried address, op_SLOAD one READ
and op_SSTORE one WRITE for the executing contract. -/
theorem recording_handlers_add_one_access (pc : Nat) (interp : interpreter) (c : Contract)
    (a v : Word) (rest : Stack) (m : Memory) :
    (∃ o, op_BALANCE pc interp ⟨c, a :: rest, m⟩ = some o
      ∧ o.interp.evm.rw_set = interp.evm.rw_set ++ [(U256.Bytes20 a, Access.READ)])
    ∧ (∃ o, op_EXTCODESIZE pc interp ⟨c, a :: rest, m⟩ = some o
      ∧ o.interp.evm.rw_set = interp.evm.rw_set ++ [(U256.Bytes20 a, Access.READ)])
    ∧ (∃ o, op_EXTCODEHASH pc interp ⟨c, a :: rest, m⟩ = some o
      ∧ o.interp.evm.rw_set = interp.evm.rw_set ++ [(U256.Bytes20 a, Access.READ)])
    ∧ (∃ o, op_SLOAD pc interp ⟨c, a :: rest, m⟩ = some o
      ∧ o.interp.evm.rw_set = interp.evm.rw_set ++ [(c.address, Access.READ)])
    ∧ (∃ o, op_SSTORE pc interp ⟨c, a :: v :: rest, m⟩ = some o
      ∧ o.interp.evm.rw_set = interp.evm.rw_set ++ [(c.address, Access.WRITE)]) :=
  ⟨⟨_, rfl, rfl⟩, ⟨_, rfl, rfl⟩, ⟨_, rfl, rfl⟩, ⟨_, rfl, rfl⟩, ⟨_, rfl, rfl⟩⟩

/-- On every state op_SELFBALANCE pushes the overlay-resolved balance of the
executing contract and leaves the read/write set as it was. -/
theorem op_SELFBALANCE_keeps_rw_set (pc : Nat) (interp : interpreter) (ctx : callCtx) :
    ∃ o, op_SELFBALANCE pc interp ctx = some o
      ∧ o.ctx.stack
          = (match interp.evm.mstate.get_balance ctx.contract.address with
              | some b => b
              | none => interp.evm.state.GetBalance ctx.contract.address) :: ctx.stack
      ∧ o.interp.evm.rw_set = interp.evm.rw_set :=
  ⟨_, rfl, rfl, rfl⟩

/-- C6: op_SELFBALANCE run for the contract at address 0xaa, with an empty
overlay, committed balance 7, an empty stack and an empty read/write set,
pushes the balance 7 it read for 0xaa and leaves the read/write set empty: no
access entry is recorded for the address whose balance was read. -/
theorem op_SELFBALANCE_records_no_access :
    (op_SELFBALANCE 0 (mkInterp emptyOverlay (constState 7) 0 (fun _ => []))
        ⟨mkContract 0, [], ⟨[]⟩⟩).map (fun o => (o.ctx.stack, o.interp.evm.rw_set))
      = some ([7], []) := by
  decide

/-- C7: on every state and for every slot word, op_SSTORE appends exactly one
entry (executing contract's address, WRITE) to the read/write set and op_SLOAD
exactly one entry (executing contract's address, READ); op_SSTORE followed by
op_SLOAD therefore appends WRITE and then READ for that one address. -/
theorem sstore_sload_access_entries (pc pc2 : Nat) (interp interp2 : interpreter) (c : Contract)
    (s v s2 : Word) (rest rest2 : Stack) (m m2 : Memory) :
    (∃ o, op_SSTORE pc interp ⟨c, s :: v :: rest, m⟩ = some o
      ∧ o.interp.evm.rw_set = interp.evm.rw_set ++ [(c.address, Access.WRITE)])
    ∧ (∃ o, op_SLOAD pc2 interp2 ⟨c, s2 :: rest2, m2⟩ = some o
      ∧ o.interp.evm.rw_set = interp2.evm.rw_set ++ [(c.address, Access.READ)])
    ∧ (∃ o1 o2, op_SSTORE pc interp ⟨c, s :: v :: rest, m⟩ = some o1
      ∧ op_SLOAD pc2 o1.interp ⟨c, s2 :: rest2, m2⟩ = some o2
      ∧ o2.interp.evm.rw_set
          = interp.evm.rw_set ++ [(c.address, Access.WRITE), (c.address, Access.READ)]) := by
  refine ⟨⟨_, rfl, rfl⟩, ⟨_, rfl, rfl⟩, ⟨_, _, rfl, rfl, ?_⟩⟩
  simp [op_SSTORE, op_SLOAD, RWSet.add, Stack.Pop, Stack.Peek]

/-- What op_BLOCKHASH leaves on every state: the block hash exactly when the
low 64 bits of n lie in the window below the block number, zero otherwise. -/
theorem op_BLOCKHASH_tests_low_64_bits (pc : Nat) (interp : interpreter) (c : Contract)
    (n : Word) (rest : Stack) (m : Memory) :
    op_BLOCKHASH pc interp ⟨c, n :: rest, m⟩
      = some ⟨0, pc, interp, ⟨c,
          (if (if interp.evm.block.NumberU64 < 257 then 0 else interp.evm.block.NumberU64 - 256)
                ≤ n % 2 ^ 64 ∧ n % 2 ^ 64 < interp.evm.block.NumberU64
            then U256.SetBytes interp.evm.block.Hash else 0) :: rest, m⟩⟩ := by
  simp only [op_BLOCKHASH, Stack.Peek, U256.Uint64WithOverflow, u64Mod, Option.bind_eq_bind,
    Option.some_bind, ge_iff_le]
  split <;> split <;> split <;> rfl

/-- C8: with current block number 10 and block hash 0xabcd, op_BLOCKHASH on
n = 2 ^ 64 + 5, a word that is not below 10 and does not fit in 64 bits,
leaves the block hash 0xabcd and not zero. -/
theorem op_BLOCKHASH_overflow_reaches_range_test :
    (op_BLOCKHASH 0 (mkInterp emptyOverlay (constState 0) 10 (fun _ => []))
        ⟨mkContract 0, [2 ^ 64 + 5], ⟨[]⟩⟩).map (fun o => o.ctx.stack) = some [0xabcd]
    ∧ ¬ (2 ^ 64 + 5 < 10) ∧ (0xabcd : Nat) ≠ 0 := by
  decide

/-- C9: for every destination word d, op_JUMP pops d and returns d as a 64-bit
program counter (`dest.Uint64()`, which is d itself whenever d fits in 64
bits) when the contract's is_jumpable accepts d, and 0 when it rejects d;
op_JUMPI pops d and the condition and returns the same value for every value
of the condition. -/
theorem jump_returns_accepted_destination (pc pc2 : Nat) (interp : interpreter) (c : Contract)
    (d cond : Word) (rest : Stack) (m : Memory) :
    op_JUMP pc interp ⟨c, d :: rest, m⟩
        = some ⟨if c.is_jumpable d then U256.Uint64 d else 0, pc, interp, ⟨c, rest, m⟩⟩
    ∧ op_JUMPI pc2 interp ⟨c, d :: cond :: rest, m⟩
        = some ⟨if c.is_jumpable d then U256.Uint64 d else 0, pc2, interp, ⟨c, rest, m⟩⟩
    ∧ (d < 2 ^ 64 → U256.Uint64 d = d) := by
  refine ⟨?_, ?_, ?_⟩
  · cases h : c.is_jumpable d <;> simp [op_JUMP, Stack.Pop, h]
  · cases h : c.is_jumpable d <;> simp [op_JUMPI, Stack.Pop, h]
  · intro hd
    exact Nat.mod_eq_of_lt hd

/-- C9 at concrete inputs: with destinations below 16 accepted, op_JUMP to 7
returns 7, op_JUMPI to 7 returns 7 under the conditions 0 and 1, and op_JUMP
to 20 returns 0. -/
theorem jump_returns_accepted_destination_witness :
    (op_JUMP 0 (mkInterp emptyOverlay (constState 0) 0 (fun _ => []))
        ⟨mkContract 16, [7, 9], ⟨[]⟩⟩).map (fun o => (o.ret, o.ctx.stack)) = some (7, [9])
    ∧ (op_JUMPI 0 (mkInterp emptyOverlay (constState 0) 0 (fun _ => []))
        ⟨mkContract 16, [7, 0, 9], ⟨[]⟩⟩).map (fun o => (o.ret, o.ctx.stack)) = some (7, [9])
    ∧ (op_JUMPI 0 (mkInterp emptyOverlay (constState 0) 0 (fun _ => []))
        ⟨mkContract 16, [7, 1, 9], ⟨[]⟩⟩).map (fun o => (o.ret, o.ctx.stack)) = some (7, [9])
    ∧ (op_JUMP 0 (mkInterp emptyOverlay (constState 0) 0 (fun _ => []))
        ⟨mkContract 16, [20, 9], ⟨[]⟩⟩).map (fun o => (o.ret, o.ctx.stack)) = some (0, [9]) := by
  refine ⟨?_, ?_, ?_, ?_⟩
  · rw [(jump_returns_accepted_destination 0 0 _ (mkContract 16) 7 0 [9] ⟨[]⟩).1]
    decide
  · rw [(jump_returns_accepted_destination 0 0 _ (mkContract 16) 7 0 [9] ⟨[]⟩).2.1]
    decide
  · rw [(jump_returns_accepted_destination 0 0 _ (mkContract 16) 7 1 [9] ⟨[]⟩).2.1]
    decide
  · rw [(jump_returns_accepted_destination 0 0 _ (mkContract 16) 20 0 [9] ⟨[]⟩).1]
    decide

/-- C10: for each of the 21 two-operand handlers and every state whose stack
has depth at least 2: the handler returns 0, leaves pc, interpreter, contract
and memory unchanged, and the resulting stack is one result word r on top of
everything that lay below the two operands, so it is one shorter and r sits
in the slot that held the second operand. -/
theorem binary_handlers_frame (h : Nat → interpreter → callCtx → Option Outcome)
    (hmem : h ∈ binaryHandlers) (pc : Nat) (interp : interpreter) (ctx : callCtx)
    (hdepth : 2 ≤ ctx.stack.length) :
    ∃ r, h pc interp ctx
      = some ⟨0, pc, interp, { ctx with stack := r :: ctx.stack.drop 2 }⟩ := by
  obtain ⟨c, st, m⟩ := ctx
  match st, hdepth with
  | x :: y :: rest, _ =>
    simp only [binaryHandlers, List.mem_cons, List.mem_singleton, List.not_mem_nil,
      or_false] at hmem
    rcases hmem with rfl | rfl | rfl | rfl | rfl | rfl | rfl | rfl | rfl | rfl | rfl | rfl | rfl
      | rfl | rfl | rfl | rfl | rfl | rfl | rfl | rfl <;> exact ⟨_, rfl⟩

/-- C10 at a concrete input: op_SUB on the stack `[5, 3, 9]` with memory
`[1, 2]` leaves one result word above `[9]` and the memory `[1, 2]`. -/
theorem binary_handlers_frame_witness :
    op_SUB ∈ binaryHandlers ∧ 2 ≤ ([5, 3, 9] : Stack).length
    ∧ ∃ r, op_SUB 0 (mkInterp emptyOverlay (constState 0) 0 (fun _ => []))
          ⟨mkContract 0, [5, 3, 9], ⟨[1, 2]⟩⟩
        = some ⟨0, 0, mkInterp emptyOverlay (constState 0) 0 (fun _ => []),
            ⟨mkContract 0, r :: [9], ⟨[1, 2]⟩⟩⟩ :=
  ⟨by simp [binaryHandlers], by decide,
    binary_handlers_frame op_SUB (by simp [binaryHandlers]) 0
      (mkInterp emptyOverlay (constState 0) 0 (fun _ => []))
      ⟨mkContract 0, [5, 3, 9], ⟨[1, 2]⟩⟩ (by decide)⟩

/-! ## Lemmas for the arithmetic, memory and create claims -/

/-- Subtracting `b` after adding `b` gives back a 256-bit word. -/
theorem U256.sub_add_cancel (a b : Nat) (ha : a < wordMod) (hb : b < wordMod) :
    U256.Sub (U256.Add a b) b = a := by
  simp only [U256.Sub, U256.Add]
  rw [Nat.mod_eq_of_lt hb]
  generalize wordMod = W at ha hb ⊢
  by_cases h : a + b < W
  · rw [Nat.mod_eq_of_lt h]
    have e : a + b + (W - b) = a + W := by omega
    rw [e, Nat.add_mod_right, Nat.mod_eq_of_lt ha]
  · have h2 : (a + b) % W = a + b - W := by
      rw [Nat.mod_eq_sub_mod (by omega), Nat.mod_eq_of_lt (by omega)]
    rw [h2]
    have e : a + b - W + (W - b) = a := by omega
    rw [e, Nat.mod_eq_of_lt ha]

/-- The arithmetic right shift of the all-ones word is the all-ones word, for
every shift amount. -/
theorem U256.srsh_allOnes (n : Nat) : U256.SRsh (wordMod - 1) n = wordMod - 1 := by
  have hnot : ¬ (wordMod - 1 < 2 ^ 255) := by simp [wordMod]
  simp only [U256.SRsh, if_neg hnot]
  split
  · rfl
  · rename_i hn
    have hpow : wordMod = 2 ^ (256 - n) * 2 ^ n := by
      rw [wordMod, ← pow_add]
      congr 1
      omega
    have hpos : 0 < 2 ^ (256 - n) := Nat.pos_pow_of_pos _ (by norm_num)
    have hpos2 : 0 < 2 ^ n := Nat.pos_pow_of_pos _ (by norm_num)
    rw [hpow]
    generalize 2 ^ (256 - n) = A at hpos ⊢
    generalize 2 ^ n = B at hpos2 ⊢
    obtain ⟨A', rfl⟩ : ∃ A', A = A' + 1 := ⟨A - 1, by omega⟩
    have hdiv : ((A' + 1) * B - 1) / B = A' := by
      rw [Nat.succ_mul, Nat.add_sub_assoc hpos2, Nat.mul_comm, Nat.mul_add_div hpos2,
        Nat.div_eq_of_lt (by omega)]
      rfl
    have hle : A' + 1 ≤ (A' + 1) * B := Nat.le_mul_of_pos_right _ hpos2
    rw [hdiv]
    generalize (A' + 1) * B = W at hle ⊢
    show (A' + (W - (A' + 1)) : Nat) = W - 1
    omega

/-- The word read back from the 20 bytes of an address is the address modulo
`2 ^ 160`: the 20 bytes zero-extended. -/
theorem U256.setBytes_addressBytes (a : Address) :
    U256.SetBytes (addressBytes a) = a % 2 ^ 160 := by
  have h256 : (256 : Nat) ^ 20 = 2 ^ 160 := by norm_num
  have hlt : a % 2 ^ 160 < 2 ^ 256 :=
    Nat.lt_of_lt_of_le (Nat.mod_lt _ (by norm_num)) (by norm_num)
  simp only [U256.SetBytes, addressBytes, U256.foldl_toBytesBE, wordMod, zero_mul, zero_add, h256]
  exact Nat.mod_eq_of_lt hlt

/-- A memory read is empty exactly when its size is zero. -/
theorem Memory.getPtr_eq_nil (m : Memory) (offset size : Nat) :
    m.GetPtr offset size = [] ↔ size = 0 := by
  simp [Memory.GetPtr]

/-- On every state whose memory does not reach the offset, op_MSTORE8 does not
complete: the indexed assignment is out of range. -/
theorem op_MSTORE8_out_of_range (pc : Nat) (interp : interpreter) (c : Contract)
    (off val : Word) (rest : Stack) (m : Memory) (h : m.Len ≤ U256.Uint64 off) :
    op_MSTORE8 pc interp ⟨c, off :: val :: rest, m⟩ = none := by
  have h2 : ¬ U256.Uint64 off < m.store.length := Nat.not_lt.mpr h
  simp [op_MSTORE8, Stack.Pop, Memory.assignAt, h2]

/-! ## The claims, continued -/

/-- C11: for all 256-bit words a and b, op_ADD and then op_SUB on a stack
whose top three items are a, b, b (a on top) leave a in place of those three
items; in integers, ((a + b) mod 2^256 - b) mod 2^256 = a. -/
theorem add_then_sub_restores (pc pc2 : Nat) (interp : interpreter) (c : Contract)
    (a b : Word) (rest : Stack) (m : Memory) (ha : a < 2 ^ 256) (hb : b < 2 ^ 256) :
    (∃ o1 o2, op_ADD pc interp ⟨c, a :: b :: b :: rest, m⟩ = some o1
      ∧ op_SUB pc2 o1.interp o1.ctx = some o2
      ∧ o2.ctx.stack = a :: rest)
    ∧ ((((a : Int) + b) % 2 ^ 256 - b) % 2 ^ 256 = a) := by
  refine ⟨⟨_, _, rfl, rfl, ?_⟩, ?_⟩
  · show U256.Sub (U256.Add a b) b :: rest = a :: rest
    rw [U256.sub_add_cancel a b ha hb]
  · have h1 : (0 : Int) ≤ a := Int.ofNat_nonneg a
    have h3 : (a : Int) < 2 ^ 256 := by exact_mod_cast ha
    rw [Int.sub_emod, Int.emod_emod_of_dvd _ (dvd_refl _), ← Int.sub_emod, add_sub_cancel_right]
    exact Int.emod_eq_of_lt h1 h3

/-- C11 at a concrete input where the addition wraps around: a = 2^256 - 1 and
b = 5 on the stack `[a, 5, 5, 9]` end as `[a, 9]`. -/
theorem add_then_sub_restores_witness :
    ((2 ^ 256 - 1 : Nat) < 2 ^ 256 ∧ (5 : Nat) < 2 ^ 256)
    ∧ (∃ o1 o2, op_ADD 0 (mkInterp emptyOverlay (constState 0) 0 (fun _ => []))
          ⟨mkContract 0, (2 ^ 256 - 1) :: 5 :: 5 :: [9], ⟨[]⟩⟩ = some o1
      ∧ op_SUB 1 o1.interp o1.ctx = some o2
      ∧ o2.ctx.stack = (2 ^ 256 - 1) :: [9])
    ∧ (((((2 ^ 256 - 1 : Nat) : Int) + (5 : Nat)) % 2 ^ 256 - (5 : Nat)) % 2 ^ 256
        = ((2 ^ 256 - 1 : Nat) : Int)) :=
  ⟨⟨by norm_num, by norm_num⟩,
    add_then_sub_restores 0 1 (mkInterp emptyOverlay (constState 0) 0 (fun _ => []))
      (mkContract 0) (2 ^ 256 - 1) 5 [9] ⟨[]⟩ (by norm_num) (by norm_num)⟩

/-- C12: for every base, zero included, op_EXP with the base on top of the
stack and the exponent 0 below it leaves the word 1 in the exponent's slot. -/
theorem exp_zero_exponent_is_one (pc : Nat) (interp : interpreter) (c : Contract) (base : Word)
    (rest : Stack) (m : Memory) :
    op_EXP pc interp ⟨c, base :: 0 :: rest, m⟩ = some ⟨0, pc, interp, ⟨c, 1 :: rest, m⟩⟩
    ∧ op_EXP pc interp ⟨c, 0 :: 0 :: rest, m⟩ = some ⟨0, pc, interp, ⟨c, 1 :: rest, m⟩⟩ :=
  ⟨rfl, rfl⟩

/-- C13: for every value and every shift amount of 256 or more, also one that
does not fit in 64 bits, op_SHL and op_SHR leave the word 0. -/
theorem shl_shr_large_shift_is_zero (pc : Nat) (interp : interpreter) (c : Contract)
    (shift value : Word) (rest : Stack) (m : Memory) (h : 256 ≤ shift) :
    op_SHL pc interp ⟨c, shift :: value :: rest, m⟩ = some ⟨0, pc, interp, ⟨c, 0 :: rest, m⟩⟩
    ∧ op_SHR pc interp ⟨c, shift :: value :: rest, m⟩
        = some ⟨0, pc, interp, ⟨c, 0 :: rest, m⟩⟩ := by
  have hlt : U256.LtUint64 shift 256 = false := by
    simp only [U256.LtUint64, decide_eq_false_iff_not]
    exact Nat.not_lt.mpr h
  constructor
  · simp [op_SHL, Stack.Pop, Stack.Peek, Stack.setTop, hlt]
  · simp [op_SHR, Stack.Pop, Stack.Peek, Stack.setTop, hlt]

/-- C13 at a concrete input: the shift amount 2^64, whose low 64 bits are 0,
clears the value 0xff under both handlers. -/
theorem shl_shr_large_shift_is_zero_witness :
    (256 : Nat) ≤ 2 ^ 64
    ∧ op_SHL 0 (mkInterp emptyOverlay (constState 0) 0 (fun _ => []))
          ⟨mkContract 0, [2 ^ 64, 0xff, 9], ⟨[]⟩⟩
        = some ⟨0, 0, mkInterp emptyOverlay (constState 0) 0 (fun _ => []),
            ⟨mkContract 0, [0, 9], ⟨[]⟩⟩⟩
    ∧ op_SHR 0 (mkInterp emptyOverlay (constState 0) 0 (fun _ => []))
          ⟨mkContract 0, [2 ^ 64, 0xff, 9], ⟨[]⟩⟩
        = some ⟨0, 0, mkInterp emptyOverlay (constState 0) 0 (fun _ => []),
            ⟨mkContract 0, [0, 9], ⟨[]⟩⟩⟩ :=
  ⟨by norm_num,
    shl_shr_large_shift_is_zero 0 (mkInterp emptyOverlay (constState 0) 0 (fun _ => []))
      (mkContract 0) (2 ^ 64) 0xff [9] ⟨[]⟩ (by norm_num)⟩

/-- C14: for every shift amount of 256 or more, also one whose low 64 bits are
below 256, op_SAR leaves 0 when the value is non-negative in two's complement
(below 2^255) and the all-ones word 2^256 - 1 when it is negative. -/
theorem sar_large_shift_saturates (pc : Nat) (interp : interpreter) (c : Contract)
    (shift value : Word) (rest : Stack) (m : Memory) (h : 256 ≤ shift) :
    (value < 2 ^ 255 →
      op_SAR pc interp ⟨c, shift :: value :: rest, m⟩
        = some ⟨0, pc, interp, ⟨c, 0 :: rest, m⟩⟩)
    ∧ (2 ^ 255 ≤ value →
      op_SAR pc interp ⟨c, shift :: value :: rest, m⟩
        = some ⟨0, pc, interp, ⟨c, (2 ^ 256 - 1) :: rest, m⟩⟩) := by
  have hgt : U256.GtUint64 shift 255 = true := by
    simp only [U256.GtUint64, decide_eq_true_eq]
    exact h
  constructor
  · intro hv
    have hs : U256.Sign value ≥ 0 := by
      simp only [U256.Sign, if_pos hv]
      split <;> decide
    simp [op_SAR, Stack.Pop, Stack.Peek, Stack.setTop, hgt, hs, U256.SRsh, U256.Rsh]
  · intro hv
    have hv0 : value ≠ 0 := by
      intro h0; rw [h0] at hv; simp at hv
    have hs : ¬ (U256.Sign value ≥ 0) := by
      simp only [U256.Sign, if_neg hv0, if_neg (Nat.not_lt.mpr hv)]
      decide
    have hall : U256.SRsh (2 ^ 256 - 1) (U256.Uint64 shift) = 2 ^ 256 - 1 :=
      U256.srsh_allOnes (U256.Uint64 shift)
    simpa [op_SAR, Stack.Pop, Stack.Peek, Stack.setTop, hgt, hs, wordMod] using hall

/-- C14 at concrete inputs: with the shift amount 2^64 (low 64 bits 0) op_SAR
takes 5 to 0 and the negative word 2^255 + 1 to the all-ones word. -/
theorem sar_large_shift_saturates_witness :
    (256 : Nat) ≤ 2 ^ 64
    ∧ op_SAR 0 (mkInterp emptyOverlay (constState 0) 0 (fun _ => []))
          ⟨mkContract 0, [2 ^ 64, 5, 9], ⟨[]⟩⟩
        = some ⟨0, 0, mkInterp emptyOverlay (constState 0) 0 (fun _ => []),
            ⟨mkContract 0, [0, 9], ⟨[]⟩⟩⟩
    ∧ op_SAR 0 (mkInterp emptyOverlay (constState 0) 0 (fun _ => []))
          ⟨mkContract 0, [2 ^ 64, 2 ^ 255 + 1, 9], ⟨[]⟩⟩
        = some ⟨0, 0, mkInterp emptyOverlay (constState 0) 0 (fun _ => []),
            ⟨mkContract 0, [2 ^ 256 - 1, 9], ⟨[]⟩⟩⟩ :=
  ⟨by norm_num,
    (sar_large_shift_saturates 0 (mkInterp emptyOverlay (constState 0) 0 (fun _ => []))
      (mkContract 0) (2 ^ 64) 5 [9] ⟨[]⟩ (by norm_num)).1 (by norm_num),
    (sar_large_shift_saturates 0 (mkInterp emptyOverlay (constState 0) 0 (fun _ => []))
      (mkContract 0) (2 ^ 64) (2 ^ 255 + 1) [9] ⟨[]⟩ (by norm_num)).2 (by norm_num)⟩

/-- C15: for all words x and y, op_ADDMOD and op_MULMOD with x on top, y
second and the modulus 0 third leave the word 0 in the modulus slot, the stack
being two shorter and everything below unchanged. -/
theorem addmod_mulmod_zero_modulus (pc : Nat) (interp : interpreter) (c : Contract)
    (x y : Word) (rest : Stack) (m : Memory) :
    op_ADDMOD pc interp ⟨c, x :: y :: 0 :: rest, m⟩ = some ⟨0, pc, interp, ⟨c, 0 :: rest, m⟩⟩
    ∧ op_MULMOD pc interp ⟨c, x :: y :: 0 :: rest, m⟩
        = some ⟨0, pc, interp, ⟨c, 0 :: rest, m⟩⟩ :=
  ⟨rfl, rfl⟩

/-- C16: op_SDIV with the dividend MIN_INT256 = 2^255 on top of the stack and
the divisor -1 = 2^256 - 1 below it completes and leaves 2^255. -/
theorem sdiv_min_int_by_minus_one (pc : Nat) (interp : interpreter) (c : Contract)
    (rest : Stack) (m : Memory) :
    op_SDIV pc interp ⟨c, 2 ^ 255 :: (2 ^ 256 - 1) :: rest, m⟩
      = some ⟨0, pc, interp, ⟨c, 2 ^ 255 :: rest, m⟩⟩ := by
  have h : U256.SDiv (2 ^ 255) (2 ^ 256 - 1) = 2 ^ 255 := by decide
  simp only [op_SDIV, Stack.Pop, Stack.Peek, Stack.setTop, Option.bind_eq_bind,
    Option.some_bind, h]

/-- C17: for all bytes a and b, on the code 0x60 a 0x60 b 0x01 and an empty
stack: op_PUSH1 at pc 0 leaves pc 1, so the next handler runs at pc 2;
op_PUSH1 at pc 2 leaves pc 3, so the next handler runs at pc 4; op_ADD at pc 4
then leaves the stack holding exactly the one word a + b, the memory
untouched. -/
theorem push1_push1_add_scenario (interp : interpreter) (c : Contract) (m : Memory)
    (a b : Nat) (ha : a < 256) (hb : b < 256) (hcode : c.Code = [0x60, a, 0x60, b, 0x01]) :
    ∃ o1 o2 o3,
      op_PUSH1 0 interp ⟨c, [], m⟩ = some o1 ∧ o1.pc + 1 = 2
      ∧ op_PUSH1 2 o1.interp o1.ctx = some o2 ∧ o2.pc + 1 = 4
      ∧ op_ADD 4 o2.interp o2.ctx = some o3
      ∧ o3.ctx.stack = [a + b] ∧ o3.ctx.memory = m := by
  have hab : U256.Add b a = a + b := by
    simp only [U256.Add, wordMod]
    rw [Nat.add_comm]
    apply Nat.mod_eq_of_lt
    have h512 : a + b < 512 := by omega
    exact Nat.lt_of_lt_of_le h512 (by norm_num)
  refine ⟨⟨0, 1, interp, ⟨c, [a], m⟩⟩, ⟨0, 3, interp, ⟨c, [b, a], m⟩⟩,
    ⟨0, 4, interp, ⟨c, [a + b], m⟩⟩, ?_, rfl, ?_, rfl, ?_, rfl, rfl⟩
  · simp [op_PUSH1, hcode, u64Mod, Stack.Push, Nat.mod_eq_of_lt ha]
  · simp [op_PUSH1, hcode, u64Mod, Stack.Push, Nat.mod_eq_of_lt hb]
  · simp only [op_ADD, Stack.Pop, Stack.Peek, Stack.setTop, Option.bind_eq_bind,
      Option.some_bind, hab]

/-- C17 at a = 5 and b = 3: the code 0x60 0x05 0x60 0x03 0x01 run from an empty
stack ends with the stack `[8]`. -/
theorem push1_push1_add_scenario_witness :
    ∃ o1 o2 o3,
      op_PUSH1 0 (mkInterp emptyOverlay (constState 0) 0 (fun _ => []))
          ⟨mkCodeContract [0x60, 5, 0x60, 3, 0x01], [], ⟨[]⟩⟩ = some o1 ∧ o1.pc + 1 = 2
      ∧ op_PUSH1 2 o1.interp o1.ctx = some o2 ∧ o2.pc + 1 = 4
      ∧ op_ADD 4 o2.interp o2.ctx = some o3
      ∧ o3.ctx.stack = [8] ∧ o3.ctx.memory = ⟨[]⟩ :=
  push1_push1_add_scenario (mkInterp emptyOverlay (constState 0) 0 (fun _ => []))
    (mkCodeContract [0x60, 5, 0x60, 3, 0x01]) ⟨[]⟩ 5 3 (by decide) (by decide) rfl

/-- C18: op_RETURN and op_REVERT are the same function. On every state with
offset on top of the stack and size below it, the handler pops both, returns 0
and leaves the memory alone; when the bytes read from memory at (offset, size)
are non-empty, which is exactly when the size passed is not zero, they become
the newest payload of the current level and every other level keeps its
payloads; when they are empty the table is unchanged; abort, result and
suicide are as before. -/
theorem return_revert_record_payload (pc : Nat) (interp : interpreter) (c : Contract)
    (offset size : Word) (rest : Stack) (m : Memory) :
    op_RETURN = op_REVERT
    ∧ (m.GetPtr (U256.Uint64 offset) (U256.Uint64 size) = [] ↔ U256.Uint64 size = 0)
    ∧ ∃ o, op_RETURN pc interp ⟨c, offset :: size :: rest, m⟩ = some o
      ∧ o.ret = 0 ∧ o.ctx.stack = rest ∧ o.ctx.memory = m
      ∧ (m.GetPtr (U256.Uint64 offset) (U256.Uint64 size) ≠ [] →
          o.interp.evm.return_data interp.evm.level
            = interp.evm.return_data interp.evm.level
                ++ [m.GetPtr (U256.Uint64 offset) (U256.Uint64 size)]
          ∧ ∀ l, l ≠ interp.evm.level →
              o.interp.evm.return_data l = interp.evm.return_data l)
      ∧ (m.GetPtr (U256.Uint64 offset) (U256.Uint64 size) = [] →
          o.interp.evm.return_data = interp.evm.return_data)
      ∧ o.interp.evm.abort = interp.evm.abort
      ∧ o.interp.evm.result = interp.evm.result
      ∧ o.interp.evm.suicide = interp.evm.suicide := by
  refine ⟨rfl, Memory.getPtr_eq_nil _ _ _, ?_⟩
  by_cases hd : m.GetPtr (U256.Uint64 offset) (U256.Uint64 size) = []
  · have hlen : ¬ (m.GetPtr (U256.Uint64 offset) (U256.Uint64 size)).length > 0 := by
      rw [hd]; simp
    refine ⟨⟨0, pc, interp, ⟨c, rest, m⟩⟩, ?_, rfl, rfl, rfl, ?_, ?_, rfl, rfl, rfl⟩
    · simp only [op_RETURN, Stack.Pop, Option.bind_eq_bind, Option.some_bind, if_neg hlen]
    · intro hne; exact absurd hd hne
    · intro _; rfl
  · have hlen : (m.GetPtr (U256.Uint64 offset) (U256.Uint64 size)).length > 0 :=
      List.length_pos.mpr hd
    refine ⟨⟨0, pc,
      { interp with evm := { interp.evm with
          return_data := returnDataAdd interp.evm.return_data interp.evm.level
            (m.GetPtr (U256.Uint64 offset) (U256.Uint64 size)) } },
      ⟨c, rest, m⟩⟩, ?_, rfl, rfl, rfl, ?_, ?_, rfl, rfl, rfl⟩
    · simp only [op_RETURN, Stack.Pop, Option.bind_eq_bind, Option.some_bind, if_pos hlen]
    · intro _
      refine ⟨by simp [returnDataAdd], ?_⟩
      intro l hl
      simp [returnDataAdd, hl]
    · intro he; exact absurd he hd

/-- C18 at concrete inputs: with memory `[1, 2, 3]` at level 0, op_RETURN of
offset 1 and size 2 makes the table of level 0 hold `[[2, 3]]`, and op_REVERT
of size 0 leaves the table `[[7]]` of level 0 as it is. -/
theorem return_revert_record_payload_witness :
    (∃ o, op_RETURN 0 (mkInterp emptyOverlay (constState 0) 0 (fun _ => []))
        ⟨mkContract 0, [1, 2, 9], ⟨[1, 2, 3]⟩⟩ = some o
      ∧ o.interp.evm.return_data 0 = [[2, 3]])
    ∧ (∃ o, op_REVERT 0 (mkInterp emptyOverlay (constState 0) 0 (fun _ => [[7]]))
        ⟨mkContract 0, [1, 0, 9], ⟨[1, 2, 3]⟩⟩ = some o
      ∧ o.interp.evm.return_data 0 = [[7]]) := by
  obtain ⟨-, -, o, h1, -, -, -, h2, -⟩ := return_revert_record_payload 0
    (mkInterp emptyOverlay (constState 0) 0 (fun _ => [])) (mkContract 0) 1 2 [9] ⟨[1, 2, 3]⟩
  obtain ⟨heq, -, o', h1', -, -, -, -, h3', -⟩ := return_revert_record_payload 0
    (mkInterp emptyOverlay (constState 0) 0 (fun _ => [[7]])) (mkContract 0) 1 0 [9]
    ⟨[1, 2, 3]⟩
  refine ⟨⟨o, h1, (h2 (by decide)).1⟩, ⟨o', ?_, ?_⟩⟩
  · rw [← heq]; exact h1'
  · rw [h3' (by decide)]; rfl

/-- C19: on every state, op_CREATE pops 3 words and op_CREATE2 pops 4, and
each pushes one word: the address the created-address table holds at
level + 1 once the orchestrator has returned, as the number its 20 bytes
denote (the address modulo 2^160). The EVM record, abort and result included,
is left as the orchestrator returned it, the memory is untouched, and
replacing the return-payload table by any other table changes neither the
returned value nor the resulting stack. -/
theorem create_pushes_recorded_address (orch : CreateOrchestrator) (pc : Nat)
    (interp : interpreter) (c : Contract) (value offset size salt : Word) (rest : Stack)
    (m : Memory) (rd : Nat → List Bytes) :
    (∃ o, op_CREATE orch pc interp ⟨c, value :: offset :: size :: rest, m⟩ = some o
      ∧ o.ret = 0
      ∧ o.ctx.stack = (o.interp.evm.create_addr (o.interp.evm.level + 1) % 2 ^ 160) :: rest
      ∧ o.interp.evm
          = orch.create interp.evm c (m.GetCopy (U256.Uint64 offset) (U256.Uint64 size)) value
      ∧ o.ctx.memory = m)
    ∧ (∃ o, op_CREATE2 orch pc interp ⟨c, value :: offset :: size :: salt :: rest, m⟩ = some o
      ∧ o.ret = 0
      ∧ o.ctx.stack = (o.interp.evm.create_addr (o.interp.evm.level + 1) % 2 ^ 160) :: rest
      ∧ o.interp.evm
          = orch.create2 interp.evm c (m.GetCopy (U256.Uint64 offset) (U256.Uint64 size))
              value salt
      ∧ o.ctx.memory = m)
    ∧ (op_CREATE (orch.withReturnData rd) pc interp
          ⟨c, value :: offset :: size :: rest, m⟩).map (fun o => (o.ret, o.ctx.stack))
        = (op_CREATE orch pc interp
          ⟨c, value :: offset :: size :: rest, m⟩).map (fun o => (o.ret, o.ctx.stack))
    ∧ (op_CREATE2 (orch.withReturnData rd) pc interp
          ⟨c, value :: offset :: size :: salt :: rest, m⟩).map (fun o => (o.ret, o.ctx.stack))
        = (op_CREATE2 orch pc interp
          ⟨c, value :: offset :: size :: salt :: rest, m⟩).map
            (fun o => (o.ret, o.ctx.stack)) := by
  refine ⟨⟨_, rfl, rfl, ?_, rfl, rfl⟩, ⟨_, rfl, rfl, ?_, rfl, rfl⟩, rfl, rfl⟩
  · simp [Stack.Push, U256.setBytes_addressBytes]
  · simp [Stack.Push, U256.setBytes_addressBytes]

/-- C19 at concrete inputs: with the address 0xcafe recorded at level 1 and a
table of two payloads, op_CREATE and op_CREATE2 leave `[0xcafe, 9]`, return 0
and keep abort = false and result = true. -/
theorem create_pushes_recorded_address_witness :
    (op_CREATE (recordingCreator 0xcafe (fun _ => [[1], [2]])) 0
        (mkInterp emptyOverlay (constState 0) 0 (fun _ => []))
        ⟨mkContract 0, [0, 0, 0, 9], ⟨[]⟩⟩).map
        (fun o => (o.ret, o.ctx.stack, o.interp.evm.abort, o.interp.evm.result))
      = some (0, [0xcafe, 9], false, true)
    ∧ (op_CREATE2 (recordingCreator 0xcafe (fun _ => [[1], [2]])) 0
        (mkInterp emptyOverlay (constState 0) 0 (fun _ => []))
        ⟨mkContract 0, [0, 0, 0, 1, 9], ⟨[]⟩⟩).map
        (fun o => (o.ret, o.ctx.stack, o.interp.evm.abort, o.interp.evm.result))
      = some (0, [0xcafe, 9], false, true) := by
  obtain ⟨⟨o, h1, h2, h3, h4, -⟩, ⟨o', h1', h2', h3', h4', -⟩, -, -⟩ :=
    create_pushes_recorded_address (recordingCreator 0xcafe (fun _ => [[1], [2]])) 0
      (mkInterp emptyOverlay (constState 0) 0 (fun _ => [])) (mkContract 0) 0 0 0 1 [9] ⟨[]⟩
      (fun _ => [])
  constructor
  · rw [h1, Option.map_some', h2, h3, h4]
    rfl
  · rw [h1', Option.map_some', h2', h3', h4']
    rfl

/-- C20: on the memory `[1, 2, 3]` (length 3) with offset 3 on top of the stack
and the value 0xff below it, op_MSTORE8 does not complete: the indexed
assignment into the store is out of range and the handler calls nothing that
grows the memory; the same holds on the empty memory of a fresh frame at
offset 0. The sibling write path does grow it: op_CALL copying the one-byte
payload 0xff to offset 3 through `memory.Set` turns `[1, 2, 3]` into
`[1, 2, 3, 0xff]`, and the memory `[1, 2, 3]` itself arises from the empty
memory by op_CALL copying a three-byte payload to offset 0. -/
theorem op_MSTORE8_at_length_does_not_complete :
    op_MSTORE8 0 (mkInterp emptyOverlay (constState 0) 0 (fun _ => []))
      ⟨mkContract 0, [3, 0xff], ⟨[1, 2, 3]⟩⟩ = none
    ∧ op_MSTORE8 0 (mkInterp emptyOverlay (constState 0) 0 (fun _ => []))
      ⟨mkContract 0, [0, 0xff], ⟨[]⟩⟩ = none
    ∧ (op_CALL idleOrchestrator 0 (mkInterp emptyOverlay (constState 0) 0 (fun _ => [[0xff]]))
        ⟨mkContract 0, [0, 0, 0, 0, 0, 3, 1], ⟨[1, 2, 3]⟩⟩).map (fun o => o.ctx.memory.store)
      = some [1, 2, 3, 0xff]
    ∧ (op_CALL idleOrchestrator 0 (mkInterp emptyOverlay (constState 0) 0 (fun _ => [[1, 2, 3]]))
        ⟨mkContract 0, [0, 0, 0, 0, 0, 0, 3], ⟨[]⟩⟩).map (fun o => o.ctx.memory.store)
      = some [1, 2, 3] :=
  ⟨rfl, rfl, by decide, by decide⟩

/-- What op_MSTORE8 does where the store already reaches the offset: for every
memory, every offset whose low 64 bits lie below the current memory length and
every value, it returns 0, pops both words, keeps the memory length, sets the
byte at the offset to the low 8 bits of the value and leaves every other byte
unchanged. -/
theorem op_MSTORE8_within_length (pc : Nat) (interp : interpreter) (c : Contract)
    (off val : Word) (rest : Stack) (m : Memory) (h : U256.Uint64 off < m.Len) :
    ∃ o, op_MSTORE8 pc interp ⟨c, off :: val :: rest, m⟩ = some o
      ∧ o.ret = 0 ∧ o.ctx.stack = rest
      ∧ o.ctx.memory.Len = m.Len
      ∧ o.ctx.memory.store.getD (U256.Uint64 off) 0 = val % 256
      ∧ ∀ j, j ≠ U256.Uint64 off → o.ctx.memory.store.getD j 0 = m.store.getD j 0 := by
  have h2 : U256.Uint64 off < m.store.length := h
  have hbyte : U256.Uint64 val % 256 = val % 256 := by
    simp only [U256.Uint64, u64Mod]
    exact Nat.mod_mod_of_dvd val (by norm_num)
  refine ⟨⟨0, pc, interp, ⟨c, rest, ⟨m.store.set (U256.Uint64 off) (U256.Uint64 val % 256)⟩⟩⟩,
    ?_, rfl, rfl, ?_, ?_, ?_⟩
  · simp [op_MSTORE8, Stack.Pop, Memory.assignAt, h2]
  · simp [Memory.Len]
  · show (m.store.set (U256.Uint64 off) (U256.Uint64 val % 256)).getD (U256.Uint64 off) 0 = _
    rw [List.getD_eq_getElem?_getD, List.getElem?_set_self h2, hbyte]
    rfl
  · intro j hj
    show (m.store.set (U256.Uint64 off) (U256.Uint64 val % 256)).getD j 0 = _
    rw [List.getD_eq_getElem?_getD, List.getD_eq_getElem?_getD,
      List.getElem?_set_ne (Ne.symm hj)]

/-- The in-range write at a concrete input: on the memory `[1, 2, 3]`
op_MSTORE8 of the value 0x1ff at offset 1 keeps the length 3, makes byte 1
equal 0xff and keeps every other byte. -/
theorem op_MSTORE8_within_length_witness :
    U256.Uint64 1 < (⟨[1, 2, 3]⟩ : Memory).Len
    ∧ ∃ o, op_MSTORE8 0 (mkInterp emptyOverlay (constState 0) 0 (fun _ => []))
          ⟨mkContract 0, [1, 0x1ff, 9], ⟨[1, 2, 3]⟩⟩ = some o
      ∧ o.ret = 0 ∧ o.ctx.stack = [9]
      ∧ o.ctx.memory.Len = (⟨[1, 2, 3]⟩ : Memory).Len
      ∧ o.ctx.memory.store.getD (U256.Uint64 1) 0 = 0x1ff % 256
      ∧ ∀ j, j ≠ U256.Uint64 1 → o.ctx.memory.store.getD j 0 = [1, 2, 3].getD j 0 :=
  ⟨by decide,
    op_MSTORE8_within_length 0 (mkInterp emptyOverlay (constState 0) 0 (fun _ => []))
      (mkContract 0) 1 0x1ff [9] ⟨[1, 2, 3]⟩ (by decide)⟩

/-! ## Lemmas for the exponentiation and push refinements -/

/-- The square-and-multiply loop computes `res * mult ^ e` modulo `2 ^ 256`
once the fuel covers every bit of the exponent. -/
theorem U256.expLoop_eq (fuel : Nat) : ∀ (mult e res : Nat), e < 2 ^ fuel → res < wordMod →
    U256.expLoop fuel mult e res = res * mult ^ e % wordMod := by
  induction fuel with
  | zero =>
    intro mult e res he hres
    have he0 : e = 0 := by simpa using he
    subst he0
    simp [U256.expLoop, Nat.mod_eq_of_lt hres]
  | succ k ih =>
    intro mult e res he hres
    by_cases he0 : e = 0
    · subst he0
      simp [U256.expLoop, Nat.mod_eq_of_lt hres]
    · have hW : 0 < wordMod := by simp [wordMod]
      have hhalf : e / 2 < 2 ^ k := by
        rw [Nat.div_lt_iff_lt_mul (by norm_num)]
        rw [pow_succ] at he
        exact he
      have hsq : (U256.Mul mult mult) ^ (e / 2) ≡ mult ^ (2 * (e / 2)) [MOD wordMod] := by
        have h1 : U256.Mul mult mult ≡ mult ^ 2 [MOD wordMod] := by
          simp only [U256.Mul, pow_two]
          exact Nat.mod_modEq _ _
        have h2 := h1.pow (e / 2)
        rwa [← pow_mul] at h2
      simp only [U256.expLoop, if_neg he0]
      by_cases hodd : e % 2 = 1
      · have hm : U256.Mul res mult < wordMod := Nat.mod_lt _ hW
        rw [if_pos hodd, ih _ _ _ hhalf hm]
        have h3 : U256.Mul res mult ≡ res * mult [MOD wordMod] := by
          simp only [U256.Mul]
          exact Nat.mod_modEq _ _
        have h4 := h3.mul hsq
        have he2 : e = 2 * (e / 2) + 1 := by omega
        have h5 : res * mult * mult ^ (2 * (e / 2)) = res * mult ^ e := by
          conv_rhs => rw [he2]
          rw [pow_succ]
          ring
        rw [h5] at h4
        exact h4
      · rw [if_neg hodd, ih _ _ _ hhalf hres]
        have h4 := (Nat.ModEq.refl res).mul hsq
        have he2 : 2 * (e / 2) = e := by omega
        rw [he2] at h4
        exact h4

/-- The general exponentiation of the library is `base ^ exponent` modulo
`2 ^ 256` for every 256-bit exponent. -/
theorem U256.exp_eq_expSpec (base exponent : Nat) (he : exponent < wordMod) :
    U256.Exp base exponent = expSpec base exponent := by
  have h := U256.expLoop_eq 256 base exponent 1 he (by simp [wordMod])
  rw [one_mul] at h
  exact h

/-- The case distinction of `op_EXP`, fast paths first, yields
`base ^ exponent` modulo `2 ^ 256` on 256-bit operands. -/
theorem U256.expFast_eq (base exponent : Nat) (hb : base < wordMod) (he : exponent < wordMod) :
    (if U256.IsZero exponent then 1
      else if U256.IsZero base then 0
      else if U256.LtUint64 exponent 2 then base
      else if U256.LtUint64 base 2 then 1
      else if U256.LtUint64 base 3 then
        if U256.LtUint64 exponent 256 then U256.Lsh 1 (U256.Uint64 exponent) else 0
      else U256.Exp base exponent) = expSpec base exponent := by
  have hspec : expSpec base exponent = base ^ exponent % wordMod := rfl
  have hW : 1 < wordMod := by simp [wordMod]
  simp only [U256.IsZero, U256.LtUint64]
  by_cases h1 : exponent = 0
  · subst h1
    rw [if_pos (by simp), hspec, pow_zero, Nat.mod_eq_of_lt hW]
  · rw [if_neg (by simpa using h1)]
    by_cases h2 : base = 0
    · subst h2
      rw [if_pos (by simp), hspec, zero_pow h1, Nat.zero_mod]
    · rw [if_neg (by simpa using h2)]
      by_cases h3 : exponent < 2
      · have e1 : exponent = 1 := by omega
        subst e1
        rw [if_pos (by simp), hspec, pow_one, Nat.mod_eq_of_lt hb]
      · rw [if_neg (by simpa using h3)]
        by_cases h4 : base < 2
        · have b1 : base = 1 := by omega
          subst b1
          rw [if_pos (by simp), hspec, one_pow, Nat.mod_eq_of_lt hW]
        · rw [if_neg (by simpa using h4)]
          by_cases h5 : base < 3
          · have b2 : base = 2 := by omega
            subst b2
            rw [if_pos (by simp)]
            by_cases h6 : exponent < 256
            · have hu : U256.Uint64 exponent = exponent := by
                simp only [U256.Uint64, u64Mod]
                exact Nat.mod_eq_of_lt (Nat.lt_of_lt_of_le h6 (by norm_num))
              rw [if_pos (by simpa using h6), hspec, hu, U256.Lsh, one_mul]
            · have hdvd : wordMod ∣ 2 ^ exponent := pow_dvd_pow 2 (Nat.le_of_not_lt h6)
              rw [if_neg (by simpa using h6), hspec, Nat.mod_eq_zero_of_dvd hdvd]
          · rw [if_neg (by simpa using h5)]
            exact U256.exp_eq_expSpec base exponent he

/-- The conversion `int(x)` keeps every value below `2 ^ 63`. -/
theorem toInt64_small (x : Nat) (h : x < 2 ^ 63) : toInt64 x = (x : Int) := by
  have hx : x % u64Mod = x := Nat.mod_eq_of_lt (Nat.lt_of_lt_of_le h (by norm_num [u64Mod]))
  simp only [toInt64, hx, if_pos h]

/-! ## The claims, concluded -/

/-- C21: on every state whose beneficiary address differs from the address of
the executing contract, op_SELFDESTRUCT pops the beneficiary and returns 0;
the overlay balance of the beneficiary becomes its former overlay balance (an
absent entry counting as zero) plus the balance of the executing contract
(overlay entry when present, else committed balance) modulo 2^256, which is
the plain sum whenever that fits in 256 bits; the overlay balance of the
executing contract is unchanged, one READ entry for the executing contract is
appended to the read/write set, the suicide flag is true and the committed
state is untouched. -/
theorem selfdestruct_credits_beneficiary (pc : Nat) (interp : interpreter) (c : Contract)
    (beneficiary : Word) (rest : Stack) (m : Memory)
    (hne : U256.Bytes20 beneficiary ≠ c.address) :
    ∃ o, op_SELFDESTRUCT pc interp ⟨c, beneficiary :: rest, m⟩ = some o
      ∧ o.ret = 0 ∧ o.ctx.stack = rest
      ∧ o.interp.evm.mstate.get_balance (U256.Bytes20 beneficiary)
          = some (((interp.evm.mstate.get_balance (U256.Bytes20 beneficiary)).getD 0
              + (interp.evm.mstate.get_balance c.address).getD
                  (interp.evm.state.GetBalance c.address)) % 2 ^ 256)
      ∧ ((interp.evm.mstate.get_balance (U256.Bytes20 beneficiary)).getD 0
              + (interp.evm.mstate.get_balance c.address).getD
                  (interp.evm.state.GetBalance c.address) < 2 ^ 256 →
          o.interp.evm.mstate.get_balance (U256.Bytes20 beneficiary)
            = some ((interp.evm.mstate.get_balance (U256.Bytes20 beneficiary)).getD 0
              + (interp.evm.mstate.get_balance c.address).getD
                  (interp.evm.state.GetBalance c.address)))
      ∧ o.interp.evm.mstate.get_balance c.address = interp.evm.mstate.get_balance c.address
      ∧ o.interp.evm.rw_set = interp.evm.rw_set ++ [(c.address, Access.READ)]
      ∧ o.interp.evm.suicide = true
      ∧ o.interp.evm.state = interp.evm.state := by
  have hbal : (interp.evm.mstate.add_balance (U256.Bytes20 beneficiary)
        (match interp.evm.mstate.get_balance c.address with
          | some b => b
          | none => interp.evm.state.GetBalance c.address)).get_balance (U256.Bytes20 beneficiary)
      = some (((interp.evm.mstate.get_balance (U256.Bytes20 beneficiary)).getD 0
          + (interp.evm.mstate.get_balance c.address).getD
              (interp.evm.state.GetBalance c.address)) % 2 ^ 256) := by
    simp only [MockState.get_balance, MockState.add_balance, if_true, U256.Add, wordMod]
    cases interp.evm.mstate.balances c.address <;> rfl
  refine ⟨_, rfl, rfl, rfl, hbal, ?_, ?_, rfl, rfl, rfl⟩
  · intro hfit
    rw [← Nat.mod_eq_of_lt hfit]
    exact hbal
  · simp only [MockState.get_balance, MockState.add_balance]
    rw [if_neg (Ne.symm hne)]

/-- C21 at a concrete input: the contract at 0xaa with overlay balance 10
self-destructs to the beneficiary 0xbb with overlay balance 5; afterwards 0xbb
holds 15, 0xaa still holds 10, the read/write set is one READ for 0xaa and
the suicide flag is set. -/
theorem selfdestruct_credits_beneficiary_witness :
    U256.Bytes20 0xbb ≠ (mkContract 0).address
    ∧ ∃ o, op_SELFDESTRUCT 0
          (mkInterp (twoBalances 0xaa 10 0xbb 5) (constState 7) 0 (fun _ => []))
          ⟨mkContract 0, [0xbb, 9], ⟨[]⟩⟩ = some o
      ∧ o.ctx.stack = [9]
      ∧ o.interp.evm.mstate.get_balance 0xbb = some 15
      ∧ o.interp.evm.mstate.get_balance 0xaa = some 10
      ∧ o.interp.evm.rw_set = [(0xaa, Access.READ)]
      ∧ o.interp.evm.suicide = true := by
  refine ⟨by decide, ?_⟩
  obtain ⟨o, h1, -, h2, h3, -, h4, h5, h6, -⟩ := selfdestruct_credits_beneficiary 0
    (mkInterp (twoBalances 0xaa 10 0xbb 5) (constState 7) 0 (fun _ => [])) (mkContract 0)
    0xbb [9] ⟨[]⟩ (by decide)
  exact ⟨o, h1, h2, h3.trans (by decide), h4.trans (by decide), h5.trans (by decide), h6⟩

/-- C22: for all 256-bit words base and exponent, op_EXP leaves
base ^ exponent modulo 2^256 (with 0 ^ 0 = 1) in the exponent's slot, and that
word is the one the general exponentiation of the default branch computes, so
every fast path agrees with it. -/
theorem op_EXP_refines_modular_power (pc : Nat) (interp : interpreter) (c : Contract)
    (base exponent : Word) (rest : Stack) (m : Memory)
    (hb : base < 2 ^ 256) (he : exponent < 2 ^ 256) :
    op_EXP pc interp ⟨c, base :: exponent :: rest, m⟩
      = some ⟨0, pc, interp, ⟨c, expSpec base exponent :: rest, m⟩⟩
    ∧ expSpec base exponent = U256.Exp base exponent := by
  refine ⟨?_, (U256.exp_eq_expSpec base exponent he).symm⟩
  simp only [op_EXP, Stack.Pop, Stack.Peek, Stack.setTop, Option.bind_eq_bind, Option.some_bind,
    U256.expFast_eq base exponent hb he]

/-- C22 at concrete inputs: base 3 with exponent 5 takes the default branch
and leaves 243; base 2 with exponent 255 takes the shift path and leaves
2^255, and with exponent 256 leaves 0; 0 ^ 0 is 1. -/
theorem op_EXP_refines_modular_power_witness :
    ((3 : Nat) < 2 ^ 256 ∧ (5 : Nat) < 2 ^ 256)
    ∧ op_EXP 0 (mkInterp emptyOverlay (constState 0) 0 (fun _ => []))
          ⟨mkContract 0, [3, 5, 9], ⟨[]⟩⟩
        = some ⟨0, 0, mkInterp emptyOverlay (constState 0) 0 (fun _ => []),
            ⟨mkContract 0, expSpec 3 5 :: [9], ⟨[]⟩⟩⟩
    ∧ expSpec 3 5 = U256.Exp 3 5 ∧ expSpec 3 5 = 243
    ∧ op_EXP 0 (mkInterp emptyOverlay (constState 0) 0 (fun _ => []))
          ⟨mkContract 0, [2, 255, 9], ⟨[]⟩⟩
        = some ⟨0, 0, mkInterp emptyOverlay (constState 0) 0 (fun _ => []),
            ⟨mkContract 0, expSpec 2 255 :: [9], ⟨[]⟩⟩⟩
    ∧ expSpec 2 255 = 2 ^ 255 ∧ expSpec 2 256 = 0 ∧ expSpec 0 0 = 1 :=
  ⟨⟨by norm_num, by norm_num⟩,
    (op_EXP_refines_modular_power 0 (mkInterp emptyOverlay (constState 0) 0 (fun _ => []))
      (mkContract 0) 3 5 [9] ⟨[]⟩ (by norm_num) (by norm_num)).1,
    (op_EXP_refines_modular_power 0 (mkInterp emptyOverlay (constState 0) 0 (fun _ => []))
      (mkContract 0) 3 5 [9] ⟨[]⟩ (by norm_num) (by norm_num)).2,
    by decide,
    (op_EXP_refines_modular_power 0 (mkInterp emptyOverlay (constState 0) 0 (fun _ => []))
      (mkContract 0) 2 255 [9] ⟨[]⟩ (by norm_num) (by norm_num)).1,
    by decide, by decide, by decide⟩

/-- C23: for every code (a Go slice, so shorter than 2^63 bytes), every stack
and every pc below 2^63 - 1, op_PUSH1 and makePush(1, 1) have the same
outcome: each returns 0, leaves pc at pc + 1 and pushes the code byte at
pc + 1, or 0 when pc + 1 is at or past the end of the code; nothing else
changes. -/
theorem op_PUSH1_refines_makePush (pc : Nat) (interp : interpreter) (ctx : callCtx)
    (hpc : pc < 2 ^ 63 - 1) (hlen : ctx.contract.Code.length < 2 ^ 63) :
    op_PUSH1 pc interp ctx
      = some ⟨0, pc + 1, interp,
          { ctx with stack := push1Spec ctx.contract.Code pc :: ctx.stack }⟩
    ∧ makePush 1 1 pc interp ctx
      = some ⟨0, pc + 1, interp,
          { ctx with stack := push1Spec ctx.contract.Code pc :: ctx.stack }⟩ := by
  have hpc1 : pc + 1 < 2 ^ 63 := by omega
  have hpcmod : (pc + 1) % u64Mod = pc + 1 :=
    Nat.mod_eq_of_lt (Nat.lt_of_lt_of_le hpc1 (by norm_num [u64Mod]))
  have hlenmod : ctx.contract.Code.length % u64Mod = ctx.contract.Code.length :=
    Nat.mod_eq_of_lt (Nat.lt_of_lt_of_le hlen (by norm_num [u64Mod]))
  constructor
  · simp only [op_PUSH1, hpcmod, hlenmod, push1Spec, Stack.Push]
    split <;> rfl
  · simp only [makePush, toInt64_small _ hpc1, hpcmod, push1Spec, Stack.Push]
    by_cases hin : pc + 1 < ctx.contract.Code.length
    · have h1 : ¬ (((pc + 1 : Nat) : Int) ≥ (ctx.contract.Code.length : Int)) := by omega
      rw [if_neg h1, if_pos hin]
      have hend : (if ((pc + 1 : Nat) : Int) + 1 ≥ (ctx.contract.Code.length : Int)
          then (ctx.contract.Code.length : Int) else ((pc + 1 : Nat) : Int) + 1)
          = ((pc + 2 : Nat) : Int) := by
        split <;> omega
      rw [hend]
      have hslice : sliceInt ctx.contract.Code ((pc + 1 : Nat) : Int) ((pc + 2 : Nat) : Int)
          = some [ctx.contract.Code.getD (pc + 1) 0] := by
        have hb : 0 ≤ ((pc + 1 : Nat) : Int) ∧ ((pc + 1 : Nat) : Int) ≤ ((pc + 2 : Nat) : Int)
            ∧ ((pc + 2 : Nat) : Int) ≤ (ctx.contract.Code.length : Int) := by omega
        simp only [sliceInt, if_pos hb, Int.toNat_ofNat]
        have h21 : pc + 2 - (pc + 1) = 1 := by omega
        rw [h21, List.take_one_drop_eq_of_lt_length hin, List.getD_eq_getElem _ _ hin]
        rfl
      have hbyte : ctx.contract.Code.getD (pc + 1) 0 % 256 % wordMod
          = ctx.contract.Code.getD (pc + 1) 0 % 256 :=
        Nat.mod_eq_of_lt (Nat.lt_of_lt_of_le (Nat.mod_lt _ (by norm_num)) (by norm_num [wordMod]))
      simp only [hslice, Option.bind_eq_bind, Option.some_bind, RightPadBytes, U256.SetBytes,
        List.length_singleton, Nat.cast_one, le_refl, if_true, List.foldl_cons, List.foldl_nil,
        zero_mul, zero_add, hbyte]
    · have h1 : ((pc + 1 : Nat) : Int) ≥ (ctx.contract.Code.length : Int) := by omega
      rw [if_pos h1, if_neg hin]
      have hend : (if (ctx.contract.Code.length : Int) + 1 ≥ (ctx.contract.Code.length : Int)
          then (ctx.contract.Code.length : Int) else (ctx.contract.Code.length : Int) + 1)
          = (ctx.contract.Code.length : Int) := by
        split <;> omega
      rw [hend]
      have hslice : sliceInt ctx.contract.Code (ctx.contract.Code.length : Int)
          (ctx.contract.Code.length : Int) = some [] := by
        have hb : 0 ≤ (ctx.contract.Code.length : Int)
            ∧ (ctx.contract.Code.length : Int) ≤ (ctx.contract.Code.length : Int)
            ∧ (ctx.contract.Code.length : Int) ≤ (ctx.contract.Code.length : Int) := by omega
        simp only [sliceInt, if_pos hb, Int.toNat_ofNat, Nat.sub_self, List.take_zero]
      simp only [hslice, Option.bind_eq_bind, Option.some_bind]
      rfl

/-- C23 at concrete inputs: on the code 0x60 0x05 at pc 0 both handlers push 5
and leave pc 1; on the code 0x60 alone, where pc + 1 is past the end, both push
0 and leave pc 1. -/
theorem op_PUSH1_refines_makePush_witness :
    ((0 : Nat) < 2 ^ 63 - 1 ∧ (mkCodeContract [0x60, 5]).Code.length < 2 ^ 63)
    ∧ op_PUSH1 0 (mkInterp emptyOverlay (constState 0) 0 (fun _ => []))
          ⟨mkCodeContract [0x60, 5], [9], ⟨[]⟩⟩
        = some ⟨0, 0 + 1, mkInterp emptyOverlay (constState 0) 0 (fun _ => []),
            ⟨mkCodeContract [0x60, 5], push1Spec [0x60, 5] 0 :: [9], ⟨[]⟩⟩⟩
    ∧ makePush 1 1 0 (mkInterp emptyOverlay (constState 0) 0 (fun _ => []))
          ⟨mkCodeContract [0x60, 5], [9], ⟨[]⟩⟩
        = some ⟨0, 0 + 1, mkInterp emptyOverlay (constState 0) 0 (fun _ => []),
            ⟨mkCodeContract [0x60, 5], push1Spec [0x60, 5] 0 :: [9], ⟨[]⟩⟩⟩
    ∧ push1Spec [0x60, 5] 0 = 5
    ∧ makePush 1 1 0 (mkInterp emptyOverlay (constState 0) 0 (fun _ => []))
          ⟨mkCodeContract [0x60], [9], ⟨[]⟩⟩
        = some ⟨0, 0 + 1, mkInterp emptyOverlay (constState 0) 0 (fun _ => []),
            ⟨mkCodeContract [0x60], push1Spec [0x60] 0 :: [9], ⟨[]⟩⟩⟩
    ∧ push1Spec [0x60] 0 = 0 :=
  ⟨⟨by norm_num, by decide⟩,
    (op_PUSH1_refines_makePush 0 (mkInterp emptyOverlay (constState 0) 0 (fun _ => []))
      ⟨mkCodeContract [0x60, 5], [9], ⟨[]⟩⟩ (by norm_num) (by decide)).1,
    (op_PUSH1_refines_makePush 0 (mkInterp emptyOverlay (constState 0) 0 (fun _ => []))
      ⟨mkCodeContract [0x60, 5], [9], ⟨[]⟩⟩ (by norm_num) (by decide)).2,
    by decide,
    (op_PUSH1_refines_makePush 0 (mkInterp emptyOverlay (constState 0) 0 (fun _ => []))
      ⟨mkCodeContract [0x60], [9], ⟨[]⟩⟩ (by norm_num) (by decide)).2,
    by decide⟩

/-- Outside the range of C23, at pc = 2^63 - 1 on the code 0x60 with the stack
`[9]`: op_PUSH1 leaves pc = 2^63 and pushes 0, while in makePush(1, 1) the
conversion `int(*pc + 1)` is negative and the slice expression does not
complete. -/
theorem makePush_differs_at_int_overflow :
    (op_PUSH1 (2 ^ 63 - 1) (mkInterp emptyOverlay (constState 0) 0 (fun _ => []))
        ⟨mkCodeContract [0x60], [9], ⟨[]⟩⟩).map (fun o => (o.ret, o.pc, o.ctx.stack))
      = some (0, 2 ^ 63, [0, 9])
    ∧ makePush 1 1 (2 ^ 63 - 1) (mkInterp emptyOverlay (constState 0) 0 (fun _ => []))
        ⟨mkCodeContract [0x60], [9], ⟨[]⟩⟩ = none :=
  ⟨by decide, by rfl⟩

end Preprocessing
